import Mathlib

/-!
# Verification of the Weibo trending scraper (TangyRyan/Weibo_zy)

Shallow embedding, in Lean 4, of the pure/algorithmic core of the repository:

* `weibo/main.py` — `convert_to_number`, `extract_numbers`, `save_day_json`, `bootstrap`;
* `weibo_enhanced/test,py.py` — the enhanced `save_day_json` merge and `bootstrap` pipeline;
* `weibo_enhanced/topic_detail.py` — `_convert_to_number`, `normalize_time`,
  `get_post_details`, `get_top_20_hot_posts`.

Network and browser effects (page loads, logins) are modelled as explicit
parameters: an oracle telling which attempt succeeds, the parsed card content
of each result page, the parsed DOM of each detail page.  Python exceptions are
modelled with `Option`/`Except` (`none`/`.error` = the function raises).
Python `float` parsing and arithmetic is idealised as exact decimal-fraction
arithmetic (`DecF`, a value `num / 10 ^ exp`); Python `str.isdigit` / regex
`\d` are modelled as ASCII digits.  `datetime` values are minutes since 0001-01-01 00:00 (the proleptic
Gregorian calendar and `datetime.min` of CPython); subtracting below that
minimum raises in Python and is an error value here.
-/

/-! ## Small Python-style string primitives (over `List Char`) -/

/-- Whitespace as recognised by Python `str.strip` / regex `\s`
(ASCII whitespace plus the common unicode spaces). -/
def pyIsSpace (c : Char) : Bool :=
  c = ' ' ∨ c = '\t' ∨ c = '\n' ∨ c = '\r' ∨ c = '\x0b' ∨ c = '\x0c' ∨
  c = ' ' ∨ c = '　'

/-- `str.strip()` on a character list: drop whitespace from both ends. -/
def pyStripL (l : List Char) : List Char :=
  ((l.dropWhile pyIsSpace).reverse.dropWhile pyIsSpace).reverse

/-- `str.strip()`. -/
def pyStrip (s : String) : String := ⟨pyStripL s.data⟩

/-- If `pat` is a prefix of `l`, return the rest of `l`; else `none`. -/
def litP : List Char → List Char → Option (List Char)
  | [], l => some l
  | _ :: _, [] => none
  | p :: ps, c :: cs => if c = p then litP ps cs else none

/-- `s.replace(pat, '')` for a fixed pattern: remove every (non-overlapping,
leftmost-first) occurrence of `pat`.  Structural recursion on a fuel that is
at least the length of the input; an empty pattern leaves the string
unchanged, like Python's `replace('', '')`. -/
def removeSubAux (pat : List Char) : Nat → List Char → List Char
  | _, [] => []
  | 0, l => l
  | fuel + 1, c :: cs =>
    match litP pat (c :: cs) with
    | some rest => removeSubAux pat fuel rest
    | none => c :: removeSubAux pat fuel cs

/-- `s.replace(pat, '')` on character lists. -/
def removeSubL (pat l : List Char) : List Char := removeSubAux pat l.length l

/-- `s.replace(pat, '')`. -/
def removeSub (pat : String) (s : String) : String := ⟨removeSubL pat.data s.data⟩

/-- Does `pat` occur as a contiguous substring (Python `pat in s`)? -/
def hasSubL (pat : List Char) : List Char → Bool
  | [] => (litP pat []).isSome
  | c :: cs => (litP pat (c :: cs)).isSome || hasSubL pat cs

/-- Python `pat in s` substring test. -/
def hasSub (pat s : String) : Bool := hasSubL pat.data s.data

/-- Python `s.startswith(pat)`. -/
def startsWithPy (pat s : String) : Bool := (litP pat.data s.data).isSome

/-- String concatenation with a definitionally transparent data list. -/
def catS (a b : String) : String := ⟨a.data ++ b.data⟩

/-- Python `str(n)` for the digits `0`–`9`. -/
def digitChar (d : Nat) : Char :=
  match d with
  | 0 => '0' | 1 => '1' | 2 => '2' | 3 => '3' | 4 => '4'
  | 5 => '5' | 6 => '6' | 7 => '7' | 8 => '8' | _ => '9'

/-- The decimal string for a list of digits (most significant first). -/
def digitsStr (ds : List Nat) : String := ⟨ds.map digitChar⟩

/-- The numeric value of a list of digits (most significant first). -/
def digitsVal (ds : List Nat) : Nat := ds.foldl (fun a d => 10 * a + d) 0

/-- `int(s)` on a non-empty all-digit string, as a fold over the characters. -/
def charsVal (cs : List Char) : Nat := cs.foldl (fun a c => 10 * a + (c.toNat - 48)) 0

/-! ## `extract_numbers` (weibo/main.py:114-117, weibo_enhanced/test,py.py:148-152)

```python
def extract_numbers(s):
    if not s:
        return 0
    return int("".join(filter(str.isdigit, str(s))))
```

`int("")` raises `ValueError`, modelled by a `none` result. -/

/-- `extract_numbers`: `none` argument is Python `None`; a `none` result is a
raised `ValueError`. -/
def extract_numbers (s : Option String) : Option Int :=
  match s with
  | none => some 0
  | some str =>
    if str = "" then some 0
    else
      let digits := str.data.filter Char.isDigit
      if digits = [] then none
      else some (charsVal digits)

/-! ## The `bootstrap` retry loop (weibo/main.py:225-263, test,py.py:337-391)

```python
retry_count = 0
while retry_count < MAX_RETRIES:
    try:
        ...attempt...
        break
    except Exception:
        retry_count += 1
        if retry_count >= MAX_RETRIES:
            break
        await asyncio.sleep(5)
```

The attempt (fetch + process + save) is abstracted as an oracle
`ok : Nat → Bool` giving the outcome of the `i`-th attempt.  The model
returns the number of attempts made, the list of sleep durations (seconds)
performed between attempts, and whether some attempt succeeded.  All
exceptions are caught inside the loop, so the function never raises. -/

def MAX_RETRIES : Nat := 5

/-- One run of the retry loop, with `fuel = MAX_RETRIES - retry_count`
remaining iterations; `idx` is the index of the next attempt. -/
def bootstrapAux (ok : Nat → Bool) (idx : Nat) : Nat → Nat × List Nat × Bool
  | 0 => (0, [], false)
  | fuel + 1 =>
    if ok idx then (1, [], true)
    else if fuel = 0 then (1, [], false)
    else
      let r := bootstrapAux ok (idx + 1) fuel
      (r.1 + 1, 5 :: r.2.1, r.2.2)

/-- The whole `bootstrap` retry loop: (attempts made, sleeps performed, success). -/
def bootstrapRun (ok : Nat → Bool) : Nat × List Nat × Bool :=
  bootstrapAux ok 0 MAX_RETRIES

/-! ## Python `float`/`int` on decimal strings

`float()` applied to the strings reaching it here (digit strings with an
optional single decimal point) is idealised as exact decimal-fraction
arithmetic: a value is `num / 10 ^ exp`.  `int()` truncates toward zero. -/

/-- An exact decimal fraction `num / 10 ^ exp`. -/
structure DecF where
  num : Int
  exp : Nat
  deriving DecidableEq

/-- `float(s)` on the supported grammar `digits [. digits]` (with surrounding
whitespace allowed); `none` is a raised `ValueError`. -/
def pyFloat (s : String) : Option DecF :=
  let cs := pyStripL s.data
  let a := cs.takeWhile Char.isDigit
  let r := cs.dropWhile Char.isDigit
  match r with
  | [] => if a = [] then none else some ⟨charsVal a, 0⟩
  | c :: r2 =>
    if c = '.' then
      let b := r2.takeWhile Char.isDigit
      let r3 := r2.dropWhile Char.isDigit
      if r3 = [] ∧ ¬ (a = [] ∧ b = []) then
        some ⟨(charsVal a) * 10 ^ b.length + charsVal b, b.length⟩
      else none
    else none

/-- `int(x)` on an exact decimal fraction: truncation toward zero. -/
def intOfDecF (d : DecF) : Int :=
  if 0 ≤ d.num then ((d.num.toNat / 10 ^ d.exp : Nat) : Int)
  else -(((-d.num).toNat / 10 ^ d.exp : Nat) : Int)

/-- Multiplication of an exact decimal fraction by `10 ^ k`. -/
def mulPow10 (d : DecF) (k : Nat) : DecF := ⟨d.num * 10 ^ k, d.exp⟩

/-! ## `convert_to_number` (weibo/main.py:104-111)

```python
def convert_to_number(val_str):
    val_str = val_str.strip()
    if '万' in val_str:
        return int(float(val_str.replace('万', '')) * 10000)
    elif '亿' in val_str:
        return int(float(val_str.replace('亿', '')) * 100000000)
    else:
        return int(float(val_str))
```

No exception handling: a `none` result is a raised `ValueError`. -/

def convert_to_number (val_str : String) : Option Int :=
  let s := pyStrip val_str
  if hasSub "万" s then (pyFloat (removeSub "万" s)).map (fun d => intOfDecF (mulPow10 d 4))
  else if hasSub "亿" s then (pyFloat (removeSub "亿" s)).map (fun d => intOfDecF (mulPow10 d 8))
  else (pyFloat s).map intOfDecF

/-! ## `_convert_to_number` (weibo_enhanced/topic_detail.py:152-167)

```python
def _convert_to_number(val_str):
    try:
        if not val_str: return 0
        s = val_str.strip()
        s = re.sub(r'[^\d\.万亿,]', '', s)
        if not s: return 0
        if '亿' in s: return int(float(s.replace('亿', '')) * 100000000)
        if '万' in s: return int(float(s.replace('万', '')) * 10000)
        s = s.replace(',', '')
        return int(float(s))
    except Exception:
        return 0
```
-/

/-- The character class kept by `re.sub(r'[^\d\.万亿,]', '', s)`. -/
def keepNumChar (c : Char) : Bool := c.isDigit ∨ c = '.' ∨ c = '万' ∨ c = '亿' ∨ c = ','

/-- The `try` body of `_convert_to_number`; `none` is a raised exception. -/
def convert_to_number_enh_body (val_str : Option String) : Option Int :=
  match val_str with
  | none => some 0
  | some v =>
    if v = "" then some 0
    else
      let s : String := ⟨(pyStripL v.data).filter keepNumChar⟩
      if s = "" then some 0
      else if hasSub "亿" s then
        (pyFloat (removeSub "亿" s)).map (fun d => intOfDecF (mulPow10 d 8))
      else if hasSub "万" s then
        (pyFloat (removeSub "万" s)).map (fun d => intOfDecF (mulPow10 d 4))
      else (pyFloat (removeSub "," s)).map intOfDecF

/-- `_convert_to_number` from topic_detail.py: the `except` clause turns any
exception into 0. -/
def convert_to_number_enh (val_str : Option String) : Int :=
  (convert_to_number_enh_body val_str).getD 0

/-! ## The daily merge `save_day_json` (weibo_enhanced/test,py.py:294-334)

```python
word_map = {word['title']: word for word in words_already_downloaded}
for word in words:
    word_dict = word.to_dict()
    if word.title in word_map:
        old_word = word_map[word.title]
        old_word['hot'] = max(word.hot, old_word.get('hot', 0))
        old_word['read_count'] = max(word.read_count or 0, old_word.get('read_count', 0))
        old_word['discuss_count'] = max(word.discuss_count or 0, old_word.get('discuss_count', 0))
        old_word['origin'] = max(word.origin or 0, old_word.get('origin', 0))
        old_word['posts'] = word_dict['posts']
    else:
        word_map[word.title] = word_dict
updated_words_dicts = sorted(list(word_map.values()), key=lambda x: x.get('hot', 0), reverse=True)
```

The prior `summary.json` contents are a list of dicts (`SWord`); an `Option`
field that is `none` is JSON `null`.  `max(int, None)` raises `TypeError`
in Python 3, modelled by `maxPy` returning an error.  The `weibo/main.py`
variant of `save_day_json` reconciles only `hot` and has no `posts` field;
the spec (§4.6, §9) adopts the enhanced variant embedded here. -/

/-- A post dict as stored in `summary.json` (`WeiboPost.to_dict`, test,py.py). -/
structure MPost where
  author : String
  content : String
  timestamp : String
  forwards_count : Int
  comments_count : Int
  likes_count : Int
  deriving DecidableEq

/-- A current-run `WeiboItem` (test,py.py:55-82). -/
structure WItem where
  title : String
  category : Option String
  description : Option String
  url : Option String
  hot : Int
  ads : Bool
  read_count : Option Int
  discuss_count : Option Int
  origin : Option Int
  posts : List MPost
  deriving DecidableEq

/-- A stored `summary.json` record (the dict written by `WeiboItem.to_dict`). -/
structure SWord where
  title : String
  category : Option String
  description : Option String
  url : Option String
  hot : Int
  ads : Bool
  read_count : Option Int
  discuss_count : Option Int
  origin : Option Int
  posts : List MPost
  deriving DecidableEq

/-- `word.to_dict()`. -/
def toSWord (w : WItem) : SWord :=
  ⟨w.title, w.category, w.description, w.url, w.hot, w.ads,
    w.read_count, w.discuss_count, w.origin, w.posts⟩

/-- Python `x or 0` on an optional count. -/
def orZero : Option Int → Int
  | some v => v
  | none => 0

/-- Python `max(cur, old_word.get(key, 0))` where the stored value may be
JSON `null` (`none`): `max(int, None)` raises `TypeError`. -/
def maxPy (cur : Int) : Option Int → Except Unit Int
  | some v => .ok (max cur v)
  | none => .error ()

/-- `title in word_map` / `word_map[title]` on the insertion-ordered dict. -/
def lookupTitle (m : List SWord) (t : String) : Option SWord :=
  m.find? (fun x => x.title = t)

/-- Python dict-comprehension semantics: the first occurrence of a key fixes
its position, a later duplicate overwrites the value in place. -/
def insertOrReplace (m : List SWord) (w : SWord) : List SWord :=
  if (lookupTitle m w.title).isSome then
    m.map (fun x => if x.title = w.title then w else x)
  else m ++ [w]

/-- `{word['title']: word for word in words_already_downloaded}`. -/
def buildMap (stored : List SWord) : List SWord :=
  stored.foldl insertOrReplace []

/-- The in-place update of the stored dict entry: the four reconciled fields
and the wholesale replacement of `posts`. -/
def mergeUpdate (wposts : List MPost) (h r d o : Int) (x : SWord) : SWord :=
  { x with
      hot := h,
      read_count := some r,
      discuss_count := some d,
      origin := some o,
      posts := wposts }

/-- One iteration of the merge loop for a current word `w`. -/
def mergeStep (m : List SWord) (w : WItem) : Except Unit (List SWord) :=
  match lookupTitle m w.title with
  | some old => do
    let h := max w.hot old.hot
    let r ← maxPy (orZero w.read_count) old.read_count
    let d ← maxPy (orZero w.discuss_count) old.discuss_count
    let o ← maxPy (orZero w.origin) old.origin
    .ok (m.map (fun x => if x.title = w.title then mergeUpdate w.posts h r d o x else x))
  | none => .ok (m ++ [toSWord w])

/-- The `for word in words` loop. -/
def mergeFold : List SWord → List WItem → Except Unit (List SWord)
  | m, [] => .ok m
  | m, w :: ws =>
    match mergeStep m w with
    | .ok m2 => mergeFold m2 ws
    | .error e => .error e

/-- Stable insertion for descending-by-`hot` order. -/
def insertHot (w : SWord) : List SWord → List SWord
  | [] => [w]
  | x :: xs => if w.hot ≥ x.hot then w :: x :: xs else x :: insertHot w xs

/-- `sorted(word_map.values(), key=lambda x: x.get('hot', 0), reverse=True)`:
a stable descending sort by `hot`. -/
def sortByHotDesc (l : List SWord) : List SWord := l.foldr insertHot []

/-- The pure core of the enhanced `save_day_json`: build the dict from the
prior summary, fold in the current run, and re-sort by descending `hot`. -/
def save_day_json_merge (stored : List SWord) (current : List WItem) :
    Except Unit (List SWord) :=
  (mergeFold (buildMap stored) current).map sortByHotDesc

/-- `old ≤ new` on an optional count: every present old value is dominated by
a present new value. -/
def FieldLe (a b : Option Int) : Prop :=
  ∀ v, a = some v → ∃ v', b = some v' ∧ v ≤ v'

/-- The merge never decreases `hot` or any present count. -/
def Bounds (old nw : SWord) : Prop :=
  old.hot ≤ nw.hot ∧ FieldLe old.read_count nw.read_count ∧
    FieldLe old.discuss_count nw.discuss_count ∧ FieldLe old.origin nw.origin

/-- Concrete sample data for the merge witnesses. -/
def samplePost : MPost := ⟨"author", "post body", "2025-01-01 00:00", 1, 2, 3⟩

def sampleStored : List SWord :=
  [⟨"A", none, none, none, 10, false, some 5, some 6, some 7, []⟩]

def sampleCurrent : List WItem :=
  [⟨"A", none, none, none, 20, false, some 9, some 1, none, []⟩]

def sampleMergedC9 : List SWord :=
  [⟨"A", none, none, none, 20, false, some 9, some 6, some 7, []⟩]

def sampleCurrentC1 : List WItem :=
  [⟨"A", none, none, none, 20, false, some 9, some 1, some 2, [samplePost]⟩]

def sampleMergedC1 : List SWord :=
  [⟨"A", none, none, none, 20, false, some 9, some 6, some 7, [samplePost]⟩]

/-! ## The enhanced `bootstrap` item pipeline (weibo_enhanced/test,py.py:337-391)

```python
for item in items:
    if item.get('promotion'):
        continue
    async def process_item(item_data):
        title = item_data.get('desc')
        if not title:
            return None
        detail, posts = await asyncio.gather(fetch_trending_detail(title),
                                             fetch_topic_posts(title))
        return WeiboItem(title=title,
                         category=detail.get('category') or item_data.get('category'),
                         description=detail.get('desc') or item_data.get('description'),
                         url=item_data.get('scheme'),
                         hot=extract_numbers(item_data.get('desc_extr')),
                         ads=False, read_count=detail.get('read_count'),
                         discuss_count=detail.get('discuss_count'),
                         origin=detail.get('origin'), posts=posts)
    tasks.append(process_item(item))
words = [result for result in await asyncio.gather(*tasks) if result is not None]
```

The raw snapshot entries carry the title in `desc`, the heat string in
`desc_extr` and the ad flag in `promotion`.  `fetch_trending_detail` and
`fetch_topic_posts` are abstracted as oracles keyed by title; a failed detail
fetch is the empty dict (all fields `none`).  An exception inside a task
(e.g. `extract_numbers` raising on a digit-free `desc_extr`) propagates out
of `asyncio.gather`, modelled with `Except`. -/

/-- One entry of the raw trending payload (`card_group` item). -/
structure RawTopic where
  desc : Option String
  category : Option String
  description : Option String
  scheme : Option String
  desc_extr : Option String
  promotion : Bool
  deriving DecidableEq

/-- The result of `fetch_trending_detail` (the empty dict on failure: every
`.get` returns `None`). -/
structure DetailR where
  category : Option String
  desc : Option String
  read_count : Option Int
  discuss_count : Option Int
  origin : Option Int
  deriving DecidableEq

/-- Python `a or b` on optional strings (`None` and `''` are falsy). -/
def pyOrS (a b : Option String) : Option String :=
  match a with
  | some s => if s = "" then b else some s
  | none => b

/-- `process_item` of the enhanced bootstrap; `.ok none` is the `return None`
path for a falsy title, `.error` a raised exception. -/
def process_item (detailF : String → DetailR) (postsF : String → List MPost)
    (it : RawTopic) : Except Unit (Option WItem) :=
  match it.desc with
  | none => .ok none
  | some t =>
    if t = "" then .ok none
    else
      let detail := detailF t
      match extract_numbers it.desc_extr with
      | none => .error ()
      | some h => .ok (some
          { title := t,
            category := pyOrS detail.category it.category,
            description := pyOrS detail.desc it.description,
            url := it.scheme,
            hot := h,
            ads := false,
            read_count := detail.read_count,
            discuss_count := detail.discuss_count,
            origin := detail.origin,
            posts := postsF t })

/-- The promotion filter plus `gather` plus the `is not None` filter. -/
def gather_items (detailF : String → DetailR) (postsF : String → List MPost) :
    List RawTopic → Except Unit (List WItem)
  | [] => .ok []
  | it :: rest =>
    if it.promotion then gather_items detailF postsF rest
    else
      match process_item detailF postsF it with
      | .error e => .error e
      | .ok r =>
        match gather_items detailF postsF rest with
        | .error e => .error e
        | .ok rs =>
          match r with
          | some w => .ok (w :: rs)
          | none => .ok rs

/-- The fixed raw topic list of the end-to-end claim, in the payload's field
names: `title` ↦ `desc`, `hot` ↦ `desc_extr`, `promotion` ↦ `promotion`. -/
def rawTopicA : RawTopic := ⟨some "A", none, none, none, some "5.2万", false⟩

def rawTopicB : RawTopic := ⟨some "B", none, none, none, some "ads", true⟩

/-- An always-empty detail oracle: `fetch_trending_detail` failed. -/
def emptyDetail : DetailR := ⟨none, none, none, none, none⟩

/-! ## `normalize_time` (weibo_enhanced/topic_detail.py:183-260)

`datetime` values are minutes since 0001-01-01 00:00 (CPython's
`datetime.min`), proleptic Gregorian.  `strftime('%Y-%m-%d %H:%M')` prints
the year unpadded (glibc `%Y`) and the other fields zero-padded to 2.
Each regex of the source is hand-compiled to an equivalent matcher; a
returned `.error ()` is a raised `OverflowError` (subtracting a timedelta
below `datetime.min`). -/

/-- Decimal printer for `Nat` (own definition, kernel-reducible). -/
def natStrAux : Nat → Nat → List Char
  | 0, _ => []
  | fuel + 1, n =>
    if n < 10 then [digitChar n]
    else natStrAux fuel (n / 10) ++ [digitChar (n % 10)]

def natStr (n : Nat) : String := ⟨natStrAux (n + 1) n⟩

/-- `%m`/`%d`/`%H`/`%M`-style zero padding to two digits. -/
def pad2 (n : Nat) : String := if n < 10 then catS "0" (natStr n) else natStr n

def isLeap (y : Nat) : Bool := (y % 4 = 0 ∧ ¬ y % 100 = 0) ∨ y % 400 = 0

def daysInMonth (y m : Nat) : Nat :=
  if m = 2 then (if isLeap y then 29 else 28)
  else if m = 4 ∨ m = 6 ∨ m = 9 ∨ m = 11 then 30 else 31

/-- Proleptic-Gregorian date of day number `z`, day 0 = 0001-01-01
(Howard Hinnant's `civil_from_days`, shifted to the 0000-03-01 epoch so all
arithmetic stays in `Nat`). -/
def civilFromDays (z : Nat) : Nat × Nat × Nat :=
  let z' := z + 306
  let era := z' / 146097
  let doe := z' % 146097
  let yoe := (doe - doe / 1460 + doe / 36524 - doe / 146096) / 365
  let y := yoe + era * 400
  let doy := doe - (365 * yoe + yoe / 4 - yoe / 100)
  let mp := (5 * doy + 2) / 153
  let d := doy - (153 * mp + 2) / 5 + 1
  let m := if mp < 10 then mp + 3 else mp - 9
  (if m ≤ 2 then y + 1 else y, m, d)

/-- `strftime('%Y-%m-%d %H:%M')` on explicit fields. -/
def fmtYMDHM (y mo d hh mm : Nat) : String :=
  catS (natStr y) (catS "-" (catS (pad2 mo) (catS "-" (catS (pad2 d)
    (catS " " (catS (pad2 hh) (catS ":" (pad2 mm))))))))

/-- `dt.strftime('%Y-%m-%d %H:%M')` of a minute-count. -/
def fmtMinutes (t : Nat) : String :=
  let ymd := civilFromDays (t / 1440)
  fmtYMDHM ymd.1 ymd.2.1 ymd.2.2 (t % 1440 / 60) (t % 1440 % 60)

/-- `now.strftime('%Y-%m-%d ...')`: just the date part of a minute-count,
with an arbitrary already-formatted time `tp` spliced in (the 今天/昨天
branches do no validation of `tp`). -/
def fmtDateWith (t : Nat) (tp : String) : String :=
  let ymd := civilFromDays (t / 1440)
  catS (natStr ymd.1) (catS "-" (catS (pad2 ymd.2.1) (catS "-" (catS (pad2 ymd.2.2)
    (catS " " tp)))))

def yearOf (t : Nat) : Nat := (civilFromDays (t / 1440)).1

/-- `datetime.strptime(f"{y}-{m:02d}-{d:02d} {hh}:{mm}", '%Y-%m-%d %H:%M')`
succeeds exactly on these bounds. -/
def isValidDT (y mo d hh mm : Nat) : Bool :=
  1 ≤ y ∧ y ≤ 9999 ∧ 1 ≤ mo ∧ mo ≤ 12 ∧ 1 ≤ d ∧ d ≤ daysInMonth y mo ∧
    hh ≤ 23 ∧ mm ≤ 59

/-- `re.match(r'^\s*(\d+)\s*' + suffix, r)`: leading whitespace, a non-empty
digit run, whitespace, then the literal `suffix`; the rest is arbitrary. -/
def matchRel (suffix : List Char) (cs : List Char) : Option Nat :=
  let cs1 := cs.dropWhile pyIsSpace
  let ds := cs1.takeWhile Char.isDigit
  let r1 := cs1.dropWhile Char.isDigit
  if ds = [] then none
  else if (litP suffix (r1.dropWhile pyIsSpace)).isSome then some (charsVal ds) else none

/-- `(\d{1,2}):(\d{1,2})$`: an `H:M` group anchored at the end of input. -/
def matchHMEnd (cs : List Char) : Option (Nat × Nat) :=
  let h := cs.takeWhile Char.isDigit
  let r1 := cs.dropWhile Char.isDigit
  if h = [] ∨ 2 < h.length then none
  else
    match r1 with
    | ':' :: r2 =>
      let m := r2.takeWhile Char.isDigit
      let r3 := r2.dropWhile Char.isDigit
      if m = [] ∨ 2 < m.length ∨ ¬ r3 = [] then none
      else some (charsVal h, charsVal m)
    | _ => none

/-- Like `matchHMEnd` but allowing trailing whitespace (`...)?\s*$`). -/
def matchHMWsEnd (cs : List Char) : Option (Nat × Nat) :=
  let h := cs.takeWhile Char.isDigit
  let r1 := cs.dropWhile Char.isDigit
  if h = [] ∨ 2 < h.length then none
  else
    match r1 with
    | ':' :: r2 =>
      let m := r2.takeWhile Char.isDigit
      let r3 := r2.dropWhile Char.isDigit
      if m = [] ∨ 2 < m.length ∨ ¬ (r3.dropWhile pyIsSpace) = [] then none
      else some (charsVal h, charsVal m)
    | _ => none

/-- `^(?:今天)\s*(\d{1,2}:\d{1,2})$` (and the 昨天 twin). -/
def matchDayWord (word : List Char) (cs : List Char) : Option (Nat × Nat) :=
  match litP word cs with
  | some rest => matchHMEnd (rest.dropWhile pyIsSpace)
  | none => none

/-- `^\s*(\d{1,2})月(\d{1,2})日(?:\s*(\d{1,2}:\d{1,2}))?\s*$`. -/
def matchMD (cs : List Char) : Option (Nat × Nat × Option (Nat × Nat)) :=
  let cs1 := cs.dropWhile pyIsSpace
  let mo := cs1.takeWhile Char.isDigit
  let r1 := cs1.dropWhile Char.isDigit
  if mo = [] ∨ 2 < mo.length then none
  else
    match r1 with
    | '月' :: r2 =>
      let d := r2.takeWhile Char.isDigit
      let r3 := r2.dropWhile Char.isDigit
      if d = [] ∨ 2 < d.length then none
      else
        match r3 with
        | '日' :: r4 =>
          let r5 := r4.dropWhile pyIsSpace
          if r5 = [] then some (charsVal mo, charsVal d, none)
          else
            match matchHMWsEnd r5 with
            | some hm => some (charsVal mo, charsVal d, some hm)
            | none => none
        | _ => none
    | _ => none

/-- The full-date regex: `^` whitespace, 4-digit year, a dash-or-slash
separator, 1-2 digit month, separator, 1-2 digit day, then an optional
whitespace-preceded `H:M` and trailing whitespace to `$`. -/
def matchYMD (cs : List Char) : Option (Nat × Nat × Nat × Option (Nat × Nat)) :=
  let cs1 := cs.dropWhile pyIsSpace
  let y := cs1.takeWhile Char.isDigit
  let r1 := cs1.dropWhile Char.isDigit
  if ¬ y.length = 4 then none
  else
    match r1 with
    | s1 :: r2 =>
      if s1 = '-' ∨ s1 = '/' then
        let mo := r2.takeWhile Char.isDigit
        let r3 := r2.dropWhile Char.isDigit
        if mo = [] ∨ 2 < mo.length then none
        else
          match r3 with
          | s2 :: r4 =>
            if s2 = '-' ∨ s2 = '/' then
              let d := r4.takeWhile Char.isDigit
              let r5 := r4.dropWhile Char.isDigit
              if d = [] ∨ 2 < d.length then none
              else if r5.dropWhile pyIsSpace = [] then
                some (charsVal y, charsVal mo, charsVal d, none)
              else
                match r5 with
                | c :: _ =>
                  if pyIsSpace c then
                    match matchHMWsEnd (r5.dropWhile pyIsSpace) with
                    | some hm => some (charsVal y, charsVal mo, charsVal d, some hm)
                    | none => none
                  else none
                | [] => none
            else none
          | [] => none
      else none
    | [] => none

/-- `(\d{1,2}):(\d{1,2})` at exactly this position (greedy hours with
backtracking against the `:`; greedy 1–2 digit minutes). -/
def timeAt (cs : List Char) : Option (Nat × Nat) :=
  match cs with
  | a :: rest1 =>
    if ¬ a.isDigit then none
    else
      match rest1 with
      | b :: rest2 =>
        if b.isDigit then
          match rest2 with
          | ':' :: rest3 =>
            let ms := (rest3.takeWhile Char.isDigit).take 2
            if ms = [] then none else some (charsVal [a, b], charsVal ms)
          | _ => none
        else if b = ':' then
          let ms := (rest2.takeWhile Char.isDigit).take 2
          if ms = [] then none else some (charsVal [a], charsVal ms)
        else none
      | [] => none
  | [] => none

/-- The lazy gap `.*?` of the fallback search: find the first matching
`H:M` without crossing a newline. -/
def findTime : List Char → Option (Nat × Nat)
  | [] => none
  | c :: rest =>
    match timeAt (c :: rest) with
    | some hm => some hm
    | none => if c = '\n' then none else findTime rest

/-- A `(\d{1,2})月(\d{1,2})日.*?(\d{1,2}:\d{1,2})` match starting exactly
here. -/
def matchMDTAt (cs : List Char) : Option (Nat × Nat × Nat × Nat) :=
  let mo := cs.takeWhile Char.isDigit
  let r1 := cs.dropWhile Char.isDigit
  if mo = [] ∨ 2 < mo.length then none
  else
    match r1 with
    | '月' :: r2 =>
      let d := r2.takeWhile Char.isDigit
      let r3 := r2.dropWhile Char.isDigit
      if d = [] ∨ 2 < d.length then none
      else
        match r3 with
        | '日' :: r4 =>
          match findTime r4 with
          | some (hh, mm) => some (charsVal mo, charsVal d, hh, mm)
          | none => none
        | _ => none
    | _ => none

/-- `re.search(r'(\d{1,2})月(\d{1,2})日.*?(\d{1,2}:\d{1,2})', r)`: leftmost
start position wins. -/
def searchMDT : List Char → Option (Nat × Nat × Nat × Nat)
  | [] => none
  | c :: rest =>
    match matchMDTAt (c :: rest) with
    | some r => some r
    | none => searchMDT rest

/-- The cleaning prefix of `normalize_time`:
`raw.strip()` then `.replace("发布于", "")` then `.strip()`. -/
def cleanTime (cs : List Char) : List Char :=
  pyStripL (removeSubL "发布于".data (pyStripL cs))

/-- `normalize_time` (topic_detail.py:183-260).  `now` is the wall-clock
minute-count at call time; `.error ()` is a raised `OverflowError` from
subtracting a timedelta below `datetime.min`. -/
def normalize_time (now : Nat) (raw : String) : Except Unit String :=
  if raw = "" then .ok ""
  else
    let r := cleanTime raw.data
    if r = "刚刚".data then .ok (fmtMinutes now)
    else
      match matchRel "分钟前".data r with
      | some n => if n ≤ now then .ok (fmtMinutes (now - n)) else .error ()
      | none =>
      match matchRel "小时前".data r with
      | some n => if 60 * n ≤ now then .ok (fmtMinutes (now - 60 * n)) else .error ()
      | none =>
      match matchDayWord "今天".data r with
      | some (hh, mm) => .ok (fmtDateWith now (catS (pad2 hh) (catS ":" (pad2 mm))))
      | none =>
      match matchDayWord "昨天".data r with
      | some (hh, mm) =>
        if 1440 ≤ now then
          .ok (fmtDateWith (now - 1440) (catS (pad2 hh) (catS ":" (pad2 mm))))
        else .error ()
      | none =>
      match matchMD r with
      | some (mo, d, tp) =>
        let hm := tp.getD (0, 0)
        if isValidDT (yearOf now) mo d hm.1 hm.2 then
          .ok (fmtYMDHM (yearOf now) mo d hm.1 hm.2)
        else .ok ⟨r⟩
      | none =>
      match matchYMD r with
      | some (y, mo, d, tp) =>
        let hm := tp.getD (0, 0)
        if isValidDT y mo d hm.1 hm.2 then .ok (fmtYMDHM y mo d hm.1 hm.2)
        else .ok ⟨r⟩
      | none =>
      match searchMDT r with
      | some (mo, d, hh, mm) =>
        if isValidDT (yearOf now) mo d hh mm then
          .ok (fmtYMDHM (yearOf now) mo d hh mm)
        else .ok ⟨r⟩
      | none => .ok ⟨r⟩

/-- Every pattern `normalize_time` recognizes, as one decidable test. -/
def matchesAnyTime (r : List Char) : Bool :=
  r = "刚刚".data ∨ (matchRel "分钟前".data r).isSome ∨
    (matchRel "小时前".data r).isSome ∨ (matchDayWord "今天".data r).isSome ∨
    (matchDayWord "昨天".data r).isSome ∨ (matchMD r).isSome ∨
    (matchYMD r).isSome ∨ (searchMDT r).isSome

instance exceptDecEq {ε α : Type} [DecidableEq ε] [DecidableEq α] :
    DecidableEq (Except ε α) := fun a b =>
  match a, b with
  | .ok x, .ok y =>
    if h : x = y then .isTrue (by rw [h]) else .isFalse (fun hh => by cases hh; exact h rfl)
  | .error e, .error f =>
    if h : e = f then .isTrue (by rw [h]) else .isFalse (fun hh => by cases hh; exact h rfl)
  | .ok _, .error _ => .isFalse (fun hh => by cases hh)
  | .error _, .ok _ => .isFalse (fun hh => by cases hh)

/-! ## `get_post_details` (weibo_enhanced/topic_detail.py:288-478)

The browser visit and BeautifulSoup queries are modelled by a `PageModel`
holding exactly the data the function reads; `none` for the whole page is a
failed visit (the `except` branch).  `urljoin('https://weibo.com', u)` is
modelled for the reference shapes that occur (protocol-relative, absolute
path, simple relative reference). -/

/-- `s.replace(pat, repl)`: replace every occurrence, leftmost first. -/
def replaceSubAux (pat repl : List Char) : Nat → List Char → List Char
  | _, [] => []
  | 0, l => l
  | fuel + 1, c :: cs =>
    match litP pat (c :: cs) with
    | some rest => repl ++ replaceSubAux pat repl fuel rest
    | none => c :: replaceSubAux pat repl fuel cs

/-- `s.replace(pat, repl)`. -/
def replaceSub (pat repl s : String) : String :=
  ⟨replaceSubAux pat.data repl.data s.data.length s.data⟩

/-- `urljoin('https://weibo.com', u)` on the reference shapes that occur
here: protocol-relative, root-relative, plain path-relative, and the empty
reference (which yields the base). -/
def urljoinWeibo (u : String) : String :=
  if u = "" then "https://weibo.com"
  else if startsWithPy "//" u then catS "https:" u
  else if startsWithPy "/" u then catS "https://weibo.com" u
  else catS "https://weibo.com/" u

/-- The nine WeiboPost fields of topic_detail.py. -/
structure WPost where
  author : String
  content : String
  timestamp : String
  source : String
  forwards_count : Int
  comments_count : Int
  likes_count : Int
  image_links : List String
  video_link : String
  deriving DecidableEq

/-- The list-page dict built for one card (before the detail visit), with
its `detail_url` dedup key. -/
structure PostData where
  author : String
  content : String
  timestamp : String
  source : String
  forwards_count : Int
  comments_count : Int
  likes_count : Int
  image_links : List String
  video_link : String
  detail_url : String
  deriving DecidableEq

/-- An `<img>` node's candidate source attributes. -/
structure ImgNode where
  src : Option String
  data_src : Option String
  data_original : Option String
  data_url : Option String
  deriving DecidableEq

/-- A text node of the date-fallback scan: its raw text and the result of
`_is_text_node_likely_time` on its DOM ancestry. -/
structure TextNode where
  text : String
  likelyTime : Bool
  deriving DecidableEq

/-- The parsed detail-page DOM, as `get_post_details`'s queries see it. -/
structure PageModel where
  hasFromNode : Bool
  fromAnchorTexts : List String
  fromFullText : String
  metaPublishTime : Option String
  hasTimeTag : Bool
  timeTagDatetime : Option String
  timeTagText : String
  textNodes : List TextNode
  imgs : List ImgNode
  anchorHrefs : List String
  deriving DecidableEq

/-- `re.search(r'[今昨天分钟前小时]', ts)`. -/
def containsRelChar (ts : String) : Bool :=
  ts.data.any (fun c => c = '今' ∨ c = '昨' ∨ c = '天' ∨ c = '分' ∨ c = '钟' ∨
    c = '前' ∨ c = '小' ∨ c = '时')

/-- Four digits, a dash-or-slash separator, one or two digits, separator,
one or two digits — the full-date regex — at exactly this position. -/
def dateAtA (cs : List Char) : Bool :=
  match cs with
  | a :: b :: c :: d :: s1 :: r1 =>
    if a.isDigit ∧ b.isDigit ∧ c.isDigit ∧ d.isDigit ∧ (s1 = '-' ∨ s1 = '/') then
      match r1 with
      | x :: y :: r2 =>
        if ¬ x.isDigit then false
        else if y = '-' ∨ y = '/' then
          match r2 with
          | z :: _ => z.isDigit
          | [] => false
        else if y.isDigit then
          match r2 with
          | s2 :: z :: _ => (s2 = '-' ∨ s2 = '/') ∧ z.isDigit
          | _ => false
        else false
      | _ => false
    else false
  | _ => false

/-- `re.search` of the full-date pattern. -/
def dateSearchA : List Char → Bool
  | [] => false
  | c :: rest => dateAtA (c :: rest) || dateSearchA rest

/-- `\d{1,2}月\d{1,2}日` at exactly this position. -/
def dateAtB (cs : List Char) : Bool :=
  match cs with
  | a :: r1 =>
    if ¬ a.isDigit then false
    else
      match r1 with
      | '月' :: r2 => dayAtB r2
      | b :: '月' :: r2 => b.isDigit && dayAtB r2
      | _ => false
  | [] => false
where
  dayAtB : List Char → Bool
  | a :: r1 =>
    if ¬ a.isDigit then false
    else
      match r1 with
      | '日' :: _ => true
      | b :: '日' :: _ => b.isDigit
      | _ => false
  | [] => false

/-- `re.search` of the month-day pattern. -/
def dateSearchB : List Char → Bool
  | [] => false
  | c :: rest => dateAtB (c :: rest) || dateSearchB rest

/-- The fallback scan over short text nodes: first stripped text of ≤ 60
characters containing a date pattern whose node ancestry looks time-like. -/
def findDateCandidate : List TextNode → Option String
  | [] => none
  | t :: rest =>
    let txt := pyStrip t.text
    if txt = "" ∨ 60 < txt.data.length then findDateCandidate rest
    else if (dateSearchA txt.data || dateSearchB txt.data) && t.likelyTime then some txt
    else findDateCandidate rest

/-- The timestamp/source chain of `get_post_details` (lines 307-360); a
raised exception in any `normalize_time` call aborts to the `except`
branch. -/
def computeTs (now : Nat) (pm : PageModel) (listTs : String) :
    Except Unit (String × String) := do
  let first ←
    if pm.hasFromNode then
      match pm.fromAnchorTexts with
      | [] => .ok (("" : String), ("" : String))
      | rawTime :: rest => do
        let ts ← normalize_time now rawTime
        let src :=
          match rest with
          | s2 :: _ => s2
          | [] =>
            let t := pyStrip (removeSub rawTime pm.fromFullText)
            if ¬ t = "" then t else ""
        .ok (ts, src)
    else .ok (("" : String), ("" : String))
  let ts1 := first.1
  let ts2 ←
    if ts1 = "" ∨ containsRelChar ts1 then
      match pm.metaPublishTime with
      | some c => if ¬ c = "" then normalize_time now c else .ok ts1
      | none => .ok ts1
    else .ok ts1
  let ts3 ←
    if ts2 = "" then
      if pm.hasTimeTag then
        match pm.timeTagDatetime with
        | some d =>
          if ¬ d = "" then normalize_time now d
          else if ¬ pm.timeTagText = "" then normalize_time now pm.timeTagText
          else .ok ""
        | none =>
          if ¬ pm.timeTagText = "" then normalize_time now pm.timeTagText
          else .ok ""
      else .ok ""
    else .ok ts2
  let ts4 ←
    if ts3 = "" then
      match findDateCandidate pm.textNodes with
      | some txt => normalize_time now txt
      | none => .ok ""
    else .ok ts3
  let ts5 ←
    if ts4 = "" then
      if ¬ listTs = "" then normalize_time now listTs else .ok ""
    else .ok ts4
  .ok (ts5, first.2)

/-- The image-URL canonicalisation chain (v9.2): size variants to `/large/`,
protocol completion, `wx` → `ww` host rewrite, absolute-path completion. -/
def canonImg (src : String) : String :=
  let s1 := replaceSub "/mw2000/" "/large/" (replaceSub "/mw1024/" "/large/"
    (replaceSub "/mw690/" "/large/" (replaceSub "/orj480/" "/large/"
    (replaceSub "/wap360/" "/large/" (replaceSub "/bmiddle/" "/large/"
    (replaceSub "/square/" "/large/" (replaceSub "/thumb150/" "/large/"
    (replaceSub "/orj180/" "/large/" (replaceSub "/orj360/" "/large/" src)))))))))
  let s2 := if startsWithPy "//" s1 then catS "https:" s1 else s1
  let s3 := replaceSub "://wx4.sinaimg.cn/" "://ww4.sinaimg.cn/"
    (replaceSub "://wx3.sinaimg.cn/" "://ww3.sinaimg.cn/"
    (replaceSub "://wx2.sinaimg.cn/" "://ww2.sinaimg.cn/"
    (replaceSub "://wx1.sinaimg.cn/" "://ww1.sinaimg.cn/" s2)))
  if startsWithPy "/" s3 then urljoinWeibo s3 else s3

/-- `src or data-src or data-original or data-url`, then canonicalise and
deduplicate preserving order. -/
def collectImages : List ImgNode → List String → List String
  | [], acc => acc
  | img :: rest, acc =>
    match pyOrS img.src (pyOrS img.data_src (pyOrS img.data_original img.data_url)) with
    | none => collectImages rest acc
    | some s =>
      if s = "" then collectImages rest acc
      else
        let l := canonImg s
        if l ∈ acc then collectImages rest acc else collectImages rest (acc ++ [l])

/-- The first anchor whose href contains `/tv/show/`. -/
def firstTvHref (anchors : List String) : Option String :=
  anchors.find? (fun h => hasSub "/tv/show/" h)

/-- `video_page_link`: the first `/tv/show/` anchor (made absolute), else the
post's own detail URL. -/
def videoLinkOf (durl : String) (anchors : List String) : String :=
  match firstTvHref anchors with
  | some h => if startsWithPy "http" h then h else urljoinWeibo h
  | none => durl

/-- Whitespace plus U+200B, the class excluded inside the caption pattern. -/
def nonSpaceNoZW (c : Char) : Bool := ¬ pyIsSpace c = true ∧ ¬ c = '​'

/-- End position (from the start of the list) of the last occurrence of
`lit`, for the greedy backtracking of `L[^\s​]*的微博视频`. -/
def lastMatchEnd (lit : List Char) : List Char → Option Nat
  | [] => none
  | c :: cs =>
    match lastMatchEnd lit cs with
    | some n => some (n + 1)
    | none => if (litP lit (c :: cs)).isSome then some lit.length else none

/-- `re.sub(r'L[^\s​]*的微博视频', '', s)`. -/
def stripCapAux : Nat → List Char → List Char
  | _, [] => []
  | 0, l => l
  | fuel + 1, c :: cs =>
    if c = 'L' then
      let run := cs.takeWhile nonSpaceNoZW
      match lastMatchEnd "的微博视频".data run with
      | some n => stripCapAux fuel (cs.drop n)
      | none => c :: stripCapAux fuel cs
    else c :: stripCapAux fuel cs

/-- `re.sub(r'\s{2,}', ' ', s)`. -/
def collapseAux : Nat → List Char → List Char
  | _, [] => []
  | 0, l => l
  | fuel + 1, c :: cs =>
    if pyIsSpace c then
      match cs with
      | d :: _ =>
        if pyIsSpace d then ' ' :: collapseAux fuel (cs.dropWhile pyIsSpace)
        else c :: collapseAux fuel cs
      | [] => [c]
    else c :: collapseAux fuel cs

/-- The caption cleanup applied to `content` when a video link is present:
strip `L…的微博视频`, collapse whitespace runs, strip. -/
def cleanCaption (s : String) : String :=
  let l1 := stripCapAux s.data.length s.data
  pyStrip ⟨collapseAux l1.length l1⟩

/-- The returned post of the success branch. -/
def buildSuccessPost (pm : PageModel) (durl : String) (pd : PostData)
    (ts src : String) : WPost :=
  let imgs := collectImages pm.imgs []
  let video := videoLinkOf durl pm.anchorHrefs
  let content := if ¬ video = "" then cleanCaption pd.content else pd.content
  { author := pd.author, content := content, timestamp := ts, source := src,
    forwards_count := pd.forwards_count, comments_count := pd.comments_count,
    likes_count := pd.likes_count, image_links := imgs, video_link := video }

/-- The `try` body of `get_post_details` on a successfully loaded page. -/
def successBody (now : Nat) (pm : PageModel) (durl : String) (pd : PostData) :
    Except Unit WPost := do
  let tsrc ← computeTs now pm pd.timestamp
  .ok (buildSuccessPost pm durl pd tsrc.1 tsrc.2)

/-- The `except` branch: best-effort record from list-page data; the content
is caption-cleaned when `detail_url` is non-empty, `video_link` is the
detail URL, and `normalize_time` may itself raise out of the handler. -/
def failurePost (now : Nat) (durl : String) (pd : PostData) : Except Unit WPost := do
  let content := if ¬ durl = "" then cleanCaption pd.content else pd.content
  let ts ← if ¬ pd.timestamp = "" then normalize_time now pd.timestamp else .ok ""
  .ok { author := pd.author, content := content, timestamp := ts, source := pd.source,
        forwards_count := pd.forwards_count, comments_count := pd.comments_count,
        likes_count := pd.likes_count, image_links := pd.image_links,
        video_link := durl }

/-- `get_post_details`: enrich one list-page record by visiting its detail
page (`pm? = none` is a failed visit). -/
def get_post_details (now : Nat) (pm? : Option PageModel) (durl : String)
    (pd : PostData) : Except Unit WPost :=
  match pm? with
  | some pm =>
    match successBody now pm durl pd with
    | .ok p => .ok p
    | .error _ => failurePost now durl pd
  | none => failurePost now durl pd

/-! ## `get_top_20_hot_posts` (weibo_enhanced/topic_detail.py:481-656)

One search-result card is a `CardT` with the data the card queries read;
the two 60-second page loads are `Option (List CardT)` (`none` = goto or
`wait_for_selector('div.card-wrap')` failed); `_login_and_update_cookies`
is a boolean outcome; the extra search pages of the inner while-loop are a
list of optional card lists; the detail visits are a function from detail
URL to `Option PageModel`. -/

/-- Configuration constants of topic_detail.py. -/
def MAX_POSTS_TO_FETCH : Nat := 20

/-- `MAX_SEARCH_PAGES = 2`. -/
def MAX_SEARCH_PAGES : Nat := 2

/-- One `div.card-wrap` of a search page, as the card loop reads it. -/
structure CardT where
  hasTxt : Bool
  author : String
  content : String
  fromHref : Option String
  fromText : String
  actions : List String
  deriving DecidableEq

/-- The card loop's detail-URL computation: `https:` completion for
protocol-relative hrefs, absolute `http` hrefs kept, otherwise
`urljoin('https://weibo.com', href)`; no from-node anchor leaves it empty. -/
def detailUrlOf (c : CardT) : String :=
  match c.fromHref with
  | some href =>
    if startsWithPy "//" href then catS "https:" href
    else if startsWithPy "http" href then href
    else urljoinWeibo href
  | none => ""

/-- The card's list-page timestamp text (set only when the from-node anchor
exists). -/
def tsOf (c : CardT) : String :=
  match c.fromHref with
  | some _ => c.fromText
  | none => ""

/-- `_convert_to_number(actions[i].get_text(strip=True)) if len(actions) > i
else 0`. -/
def actionAt (acts : List String) (i : Nat) : Int :=
  match acts.get? i with
  | some t => convert_to_number_enh (some t)
  | none => 0

/-- The dict appended to `initial_posts_data` for one accepted card. -/
def mkPostData (c : CardT) (durl : String) : PostData :=
  { author := c.author, content := c.content, timestamp := tsOf c, source := "",
    forwards_count := actionAt c.actions 0,
    comments_count := actionAt c.actions 1,
    likes_count := actionAt c.actions 2,
    image_links := [], video_link := "", detail_url := durl }

/-- The collection state shared across search pages: `seen_detail_urls`,
`initial_posts_data`, and whether `collect_list_page` returned True. -/
structure CollectSt where
  seen : List String
  acc : List PostData
  done : Bool
  deriving DecidableEq

/-- The card loop of `collect_list_page`: skip cards without `p.txt`, skip
empty or already-seen detail URLs, append otherwise, and return (with
`done := true`) as soon as the running total reaches `MAX_POSTS_TO_FETCH`. -/
def collectCards : List CardT → CollectSt → CollectSt
  | [], st => st
  | c :: cs, st =>
    if ¬ c.hasTxt then collectCards cs st
    else
      let durl := detailUrlOf c
      if durl = "" ∨ durl ∈ st.seen then collectCards cs st
      else
        let st2 : CollectSt :=
          ⟨st.seen ++ [durl], st.acc ++ [mkPostData c durl], st.done⟩
        if MAX_POSTS_TO_FETCH ≤ st2.acc.length then
          { st2 with done := true }
        else collectCards cs st2

/-- The while-loop over additional search pages: stop when the total has
reached `MAX_POSTS_TO_FETCH` or `collect_list_page` reported completion; a
failed page load (`none`) is logged and skipped. -/
def collectExtra : CollectSt → List (Option (List CardT)) → CollectSt
  | st, [] => st
  | st, p :: ps =>
    if MAX_POSTS_TO_FETCH ≤ st.acc.length then st
    else
      match p with
      | none => collectExtra st ps
      | some cards =>
        let st2 := collectCards cards st
        if st2.done then st2 else collectExtra st2 ps

/-- The `asyncio.gather` of `get_post_details` tasks; an exception in any
task propagates. -/
def detailPhase (now : Nat) (vis : String → Option PageModel) :
    List PostData → Except Unit (List WPost)
  | [] => .ok []
  | pd :: rest => do
    let p ← get_post_details now (vis pd.detail_url) pd.detail_url pd
    let ps ← detailPhase now vis rest
    .ok (p :: ps)

/-- The collection body after a successful page load: page-1 cards, extra
pages, then the detail phase; the outer `except` turns any raised exception
into `posts = []`. -/
def runCollect (now : Nat) (vis : String → Option PageModel)
    (cards1 : List CardT) (extras : List (Option (List CardT))) : List WPost :=
  let st := collectExtra (collectCards cards1 ⟨[], [], false⟩) extras
  match detailPhase now vis st.acc with
  | .ok ps => ps
  | .error _ => []

/-- The outcome of `get_top_20_hot_posts`: how many whole-page load attempts
were made, and the returned posts. -/
structure FetchRun where
  loadAttempts : Nat
  posts : List WPost
  deriving DecidableEq

/-- `get_top_20_hot_posts`: first load attempt; on failure re-authenticate
(`loginOk` = `_login_and_update_cookies` returned usable cookies) and retry
exactly once; a second failure — or a failed login — returns `[]`. -/
def get_top_20_hot_posts (now : Nat) (vis : String → Option PageModel)
    (load1 : Option (List CardT)) (loginOk : Bool)
    (load2 : Option (List CardT)) (extras : List (Option (List CardT))) :
    FetchRun :=
  match load1 with
  | some cards => ⟨1, runCollect now vis cards extras⟩
  | none =>
    if loginOk then
      match load2 with
      | some cards => ⟨2, runCollect now vis cards extras⟩
      | none => ⟨2, []⟩
    else ⟨1, []⟩

/-! ### Collector invariants -/

/-- The invariant the card loop maintains: every collected record's detail
URL is a seen URL, the detail URLs are pairwise distinct, and no more than
`MAX_POSTS_TO_FETCH` records are held. -/
def CollInv (st : CollectSt) : Prop :=
  (∀ pd ∈ st.acc, pd.detail_url ∈ st.seen) ∧
  (st.acc.map PostData.detail_url).Nodup ∧
  st.acc.length ≤ MAX_POSTS_TO_FETCH

/-- A single filler record used to exercise the stop condition. -/
def pdStop : PostData :=
  { author := "", content := "", timestamp := "", source := "",
    forwards_count := 0, comments_count := 0, likes_count := 0,
    image_links := [], video_link := "", detail_url := "u" }

/-- A full collection state (20 records) with its URL marked seen. -/
def stStop : CollectSt := ⟨["u"], List.replicate 20 pdStop, true⟩

/-- A concrete search-result card with a valid text node and from-anchor. -/
def cardW : CardT :=
  { hasTxt := true, author := "a", content := "c", fromHref := some "/u/1",
    fromText := "", actions := [] }

/-- The post the failed detail visit produces for `cardW`. -/
def wpW : WPost :=
  { author := "a", content := "c", timestamp := "", source := "",
    forwards_count := 0, comments_count := 0, likes_count := 0,
    image_links := [], video_link := "https://weibo.com/u/1" }

/-- A concrete list-page record for the C10 witness. -/
def pdC10 : PostData :=
  { author := "a", content := "c", timestamp := "", source := "",
    forwards_count := 1, comments_count := 2, likes_count := 3,
    image_links := [], video_link := "", detail_url := "u" }

/-- The post a failed detail visit yields for `pdC10`. -/
def wpC10 : WPost :=
  { author := "a", content := "c", timestamp := "", source := "",
    forwards_count := 1, comments_count := 2, likes_count := 3,
    image_links := [], video_link := "u" }

/-! ## Theorems -/

theorem litP_length : ∀ (pat l rest : List Char),
    litP pat l = some rest → l.length = pat.length + rest.length := by
  intro pat
  induction pat with
  | nil => intro l rest h; simp [litP] at h; simp [h]
  | cons p ps ih =>
    intro l rest h
    match l with
    | [] => simp [litP] at h
    | c :: cs =>
      simp only [litP] at h
      split at h
      · have := ih cs rest h
        simp [this]; omega
      · exact absurd h (by simp)

theorem catS_ne_empty_left (a b : String) (h : a ≠ "") : catS a b ≠ "" := by
  intro hab
  apply h
  cases a with
  | mk da =>
    cases b with
    | mk db =>
      simp only [catS] at hab
      have : da ++ db = ([] : List Char) := congrArg String.data hab
      rcases List.append_eq_nil.mp this with ⟨h1, _⟩
      subst h1
      rfl

theorem digitChar_isDigit {d : Nat} (h : d < 10) : (digitChar d).isDigit = true := by
  interval_cases d <;> decide

theorem digitChar_toNat {d : Nat} (h : d < 10) : (digitChar d).toNat - 48 = d := by
  interval_cases d <;> decide

theorem charsVal_map_digitChar :
    ∀ (ds : List Nat), (∀ d ∈ ds, d < 10) → charsVal (ds.map digitChar) = digitsVal ds := by
  have gen : ∀ (ds : List Nat) (a : Nat), (∀ d ∈ ds, d < 10) →
      (ds.map digitChar).foldl (fun a c => 10 * a + (c.toNat - 48)) a =
        ds.foldl (fun a d => 10 * a + d) a := by
    intro ds
    induction ds with
    | nil => intro a _; rfl
    | cons d ds ih =>
      intro a h
      simp only [List.map_cons, List.foldl_cons]
      rw [digitChar_toNat (h d (by simp))]
      exact ih _ (fun x hx => h x (by simp [hx]))
  intro ds h
  exact gen ds 0 h

theorem bootstrapAux_le (ok : Nat → Bool) :
    ∀ (fuel idx : Nat), (bootstrapAux ok idx fuel).1 ≤ fuel := by
  intro fuel
  induction fuel with
  | zero => intro idx; simp [bootstrapAux]
  | succ n ih =>
    intro idx
    simp only [bootstrapAux]
    split
    · omega
    · split
      · omega
      · have := ih (idx + 1)
        simpa using Nat.succ_le_succ this

/-- All-fail runs: if every attempted try fails, the loop performs exactly
`MAX_RETRIES` attempts with a 5-second sleep between consecutive ones. -/
theorem bootstrapAux_allfail (ok : Nat → Bool) :
    ∀ (fuel idx : Nat), (∀ i, ok i = false) → 1 ≤ fuel →
      bootstrapAux ok idx fuel = (fuel, List.replicate (fuel - 1) 5, false) := by
  intro fuel
  induction fuel with
  | zero => intro idx _ h1; omega
  | succ n ih =>
    intro idx hfail _
    simp only [bootstrapAux, hfail idx]
    by_cases hn : n = 0
    · subst hn; simp
    · have := ih (idx + 1) hfail (by omega)
      simp only [hn, if_false, this]
      have hrep : List.replicate n 5 = 5 :: List.replicate (n - 1) 5 := by
        cases n with
        | zero => exact absurd rfl hn
        | succ m => simp [List.replicate_succ]
      simp [hrep]

/-- **C2 (counterexample).**  The claim says the trending fetch makes up to 5
immediate attempts, then one distinguished 10-minute cooldown and a final 6th
attempt, returning empty after exactly 6 attempts on total failure.  Running
the embedded `bootstrap` retry loop against an always-failing fetch oracle
shows the code makes exactly **5** attempts, sleeping 5 seconds (never 600)
between consecutive attempts, and stops: there is no cooldown and no 6th
attempt. -/
theorem bootstrap_retry_counterexample :
    bootstrapRun (fun _ => false) = (5, [5, 5, 5, 5], false) ∧
      ¬ ((bootstrapRun (fun _ => false)).1 = 6) ∧
      ¬ ((600 : Nat) ∈ (bootstrapRun (fun _ => false)).2.1) := by
  refine ⟨by decide, by decide, by decide⟩

/-- **C2 (amended).**  The trending snapshot fetch makes up to `MAX_RETRIES`
(= 5) attempts, separated by a fixed 5-second delay; on total failure it
returns empty after exactly 5 attempts (4 intermediate 5-second sleeps, no
extended cooldown and no extra attempt), and since the loop catches every
exception it never raises to its caller (the embedding is a total function). -/
theorem bootstrap_retry_amended (ok : Nat → Bool) (hfail : ∀ i, ok i = false) :
    bootstrapRun ok = (5, [5, 5, 5, 5], false) ∧
      ∀ g : Nat → Bool, (bootstrapRun g).1 ≤ 5 := by
  constructor
  · have := bootstrapAux_allfail ok MAX_RETRIES 0 hfail (by decide)
    simpa [bootstrapRun, MAX_RETRIES] using this
  · intro g
    simpa [bootstrapRun, MAX_RETRIES] using bootstrapAux_le g MAX_RETRIES 0

/-- Witness for C2's amended theorem at the concrete always-failing oracle. -/
theorem bootstrap_retry_amended_witness :
    bootstrapRun (fun _ => false) = (5, [5, 5, 5, 5], false) ∧
      ∀ g : Nat → Bool, (bootstrapRun g).1 ≤ 5 :=
  bootstrap_retry_amended (fun _ => false) (fun _ => rfl)

/-- **C6.**  The claim says `extract_numbers` returns the integer formed by
concatenating the digit characters, and returns 0—without raising—when no
digits are present, including on `"ads"`.  The code does concatenate digits
(`"a1b2"` ↦ 12), and returns 0 on `None`/`""`; but on a non-empty digit-free
string it evaluates `int("")`, which raises `ValueError`: the code contradicts
the specified total behaviour.  This theorem evaluates the embedding at the
failing input `"ads"` (a `none` result is the raised exception). -/
theorem extract_numbers_code_bug :
    extract_numbers (some "a1b2") = some 12 ∧
      extract_numbers none = some 0 ∧
      extract_numbers (some "") = some 0 ∧
      extract_numbers (some "ads") = none := by
  refine ⟨by decide, by decide, by decide, by decide⟩

/-! ### Supporting lemmas for the numeric parsers -/

theorem mkStr_eq_empty_iff (l : List Char) : (⟨l⟩ : String) = "" ↔ l = [] := by
  constructor
  · intro h
    exact congrArg String.data h
  · intro h
    subst h
    rfl

theorem takeWhile_append_of_all (p : Char → Bool) (l r : List Char)
    (h : ∀ c ∈ l, p c = true) : (l ++ r).takeWhile p = l ++ r.takeWhile p := by
  induction l with
  | nil => simp
  | cons c cs ih =>
    simp only [List.cons_append, List.takeWhile_cons, h c (by simp)]
    simp [ih (fun x hx => h x (by simp [hx]))]

theorem dropWhile_append_of_all (p : Char → Bool) (l r : List Char)
    (h : ∀ c ∈ l, p c = true) : (l ++ r).dropWhile p = r.dropWhile p := by
  induction l with
  | nil => simp
  | cons c cs ih =>
    simp only [List.cons_append, List.dropWhile_cons, h c (by simp)]
    simp [ih (fun x hx => h x (by simp [hx]))]

theorem pyStripL_eq_self (l : List Char) (h : ∀ c ∈ l, pyIsSpace c = false) :
    pyStripL l = l := by
  have h1 : l.dropWhile pyIsSpace = l := by
    cases l with
    | nil => rfl
    | cons c cs => simp [List.dropWhile_cons, h c (by simp)]
  have h2 : l.reverse.dropWhile pyIsSpace = l.reverse := by
    cases hr : l.reverse with
    | nil => rfl
    | cons c cs =>
      have hc : c ∈ l := by
        have : c ∈ l.reverse := by simp [hr]
        simpa using this
      simp [List.dropWhile_cons, h c hc]
  simp [pyStripL, h1, h2]

theorem hasSubL_singleton (x : Char) (l : List Char) :
    hasSubL [x] l = true ↔ x ∈ l := by
  induction l with
  | nil => simp [hasSubL, litP]
  | cons c cs ih =>
    simp only [hasSubL, litP, List.mem_cons, Bool.or_eq_true, ih]
    constructor
    · rintro (h | h)
      · left
        by_cases hc : c = x
        · exact hc.symm
        · simp [hc] at h
      · right; exact h
    · rintro (h | h)
      · left; simp [h]
      · right; exact h

theorem litP_single_pos (c : Char) (cs : List Char) : litP [c] (c :: cs) = some cs := by
  simp [litP]

theorem litP_single_neg (x c : Char) (cs : List Char) (h : c ≠ x) :
    litP [x] (c :: cs) = none := by
  simp [litP, h]

theorem removeSubAux_singleton (x : Char) :
    ∀ (fuel : Nat) (l : List Char), l.length ≤ fuel →
      removeSubAux [x] fuel l = l.filter (fun c => c ≠ x) := by
  intro fuel
  induction fuel with
  | zero =>
    intro l hl
    have : l = [] := by
      cases l with
      | nil => rfl
      | cons c cs => simp at hl
    subst this
    rfl
  | succ n ih =>
    intro l hl
    cases l with
    | nil => rfl
    | cons c cs =>
      by_cases hc : c = x
      · subst hc
        rw [removeSubAux, litP_single_pos]
        show removeSubAux [c] n cs = _
        rw [List.filter_cons, if_neg (show ¬ (decide (c ≠ c) = true) by simp)]
        exact ih cs (by simpa using hl)
      · rw [removeSubAux, litP_single_neg x c cs hc]
        show c :: removeSubAux [x] n cs = _
        rw [List.filter_cons, if_pos (show decide (c ≠ x) = true by simp [hc])]
        rw [ih cs (by simpa using hl)]

theorem removeSubL_singleton (x : Char) (l : List Char) :
    removeSubL [x] l = l.filter (fun c => c ≠ x) :=
  removeSubAux_singleton x l.length l le_rfl

/-- Removing a pattern whose first character never occurs leaves the list
unchanged (for any fuel). -/
theorem removeSubAux_not_occur (p : Char) (ps : List Char) :
    ∀ (fuel : Nat) (l : List Char), p ∉ l → removeSubAux (p :: ps) fuel l = l := by
  intro fuel
  induction fuel with
  | zero =>
    intro l _
    cases l with
    | nil => rfl
    | cons c cs => rfl
  | succ n ih =>
    intro l hp
    cases l with
    | nil => rfl
    | cons c cs =>
      have hc : c ≠ p := by
        intro h
        exact hp (by simp [h])
      have hlit : litP (p :: ps) (c :: cs) = none := by
        simp [litP, hc]
      rw [removeSubAux, hlit, ih cs (fun h => hp (by simp [h]))]

theorem removeSubL_not_occur (p : Char) (ps : List Char) (l : List Char) (h : p ∉ l) :
    removeSubL (p :: ps) l = l :=
  removeSubAux_not_occur p ps l.length l h

theorem digitChar_not_space {d : Nat} (h : d < 10) : pyIsSpace (digitChar d) = false := by
  interval_cases d <;> decide

theorem digitChar_ne_wan {d : Nat} (h : d < 10) : digitChar d ≠ '万' := by
  interval_cases d <;> decide

theorem digitChar_ne_yi {d : Nat} (h : d < 10) : digitChar d ≠ '亿' := by
  interval_cases d <;> decide

theorem digitChar_keepNum {d : Nat} (h : d < 10) : keepNumChar (digitChar d) = true := by
  interval_cases d <;> decide

/-- `float` on a pure digit string. -/
theorem pyFloat_digits (ds : List Nat) (hne : ds ≠ []) (h : ∀ d ∈ ds, d < 10) :
    pyFloat (digitsStr ds) = some ⟨(digitsVal ds : Int), 0⟩ := by
  have hdig : ∀ c ∈ ds.map digitChar, c.isDigit = true := by
    intro c hc
    rcases List.mem_map.mp hc with ⟨d, hd, rfl⟩
    exact digitChar_isDigit (h d hd)
  have hsp : ∀ c ∈ ds.map digitChar, pyIsSpace c = false := by
    intro c hc
    rcases List.mem_map.mp hc with ⟨d, hd, rfl⟩
    exact digitChar_not_space (h d hd)
  have hmapne : ds.map digitChar ≠ [] := by simpa using hne
  have htake : (ds.map digitChar).takeWhile Char.isDigit = ds.map digitChar :=
    List.takeWhile_eq_self_iff.mpr hdig
  have hdrop : (ds.map digitChar).dropWhile Char.isDigit = [] :=
    List.dropWhile_eq_nil_iff.mpr (by intro x hx; simp [hdig x hx])
  simp only [pyFloat, digitsStr, pyStripL_eq_self _ hsp, htake, hdrop]
  rw [charsVal_map_digitChar ds h]
  simp [hmapne]

/-- `float` on `digits.digits` (optional integer part). -/
theorem pyFloat_digits_dot (a b : List Nat) (ha : ∀ d ∈ a, d < 10)
    (hb : ∀ d ∈ b, d < 10) (hbne : b ≠ []) :
    pyFloat ⟨a.map digitChar ++ '.' :: b.map digitChar⟩ =
      some ⟨(digitsVal a : Int) * 10 ^ b.length + digitsVal b, b.length⟩ := by
  have hdig : ∀ (ds : List Nat), (∀ d ∈ ds, d < 10) →
      ∀ c ∈ ds.map digitChar, c.isDigit = true := by
    intro ds hds c hc
    rcases List.mem_map.mp hc with ⟨d, hd, rfl⟩
    exact digitChar_isDigit (hds d hd)
  have hsp : ∀ c ∈ a.map digitChar ++ '.' :: b.map digitChar, pyIsSpace c = false := by
    intro c hc
    rcases List.mem_append.mp hc with h1 | h1
    · rcases List.mem_map.mp h1 with ⟨d, hd, rfl⟩
      exact digitChar_not_space (ha d hd)
    · rcases List.mem_cons.mp h1 with h2 | h2
      · subst h2; decide
      · rcases List.mem_map.mp h2 with ⟨d, hd, rfl⟩
        exact digitChar_not_space (hb d hd)
  have htake : (a.map digitChar ++ '.' :: b.map digitChar).takeWhile Char.isDigit =
      a.map digitChar := by
    rw [takeWhile_append_of_all _ _ _ (hdig a ha)]
    simp [List.takeWhile_cons]
  have hdrop : (a.map digitChar ++ '.' :: b.map digitChar).dropWhile Char.isDigit =
      '.' :: b.map digitChar := by
    rw [dropWhile_append_of_all _ _ _ (hdig a ha)]
    simp [List.dropWhile_cons]
  have htakeb : (b.map digitChar).takeWhile Char.isDigit = b.map digitChar :=
    List.takeWhile_eq_self_iff.mpr (hdig b hb)
  have hdropb : (b.map digitChar).dropWhile Char.isDigit = [] :=
    List.dropWhile_eq_nil_iff.mpr (by intro x hx; simp [hdig b hb x hx])
  have hbmapne : b.map digitChar ≠ [] := by simpa using hbne
  simp only [pyFloat, pyStripL_eq_self _ hsp, htake, hdrop, if_pos rfl, htakeb, hdropb]
  rw [charsVal_map_digitChar a ha, charsVal_map_digitChar b hb]
  simp [hbmapne]

/-- Truncating `(va * 10 ^ k + vb) / 10 ^ k * 10 ^ p` for `k ≤ p` gives the
exact integer `va * 10 ^ p + vb * 10 ^ (p - k)`. -/
theorem intOfDecF_mulPow10 (va vb k p : Nat) (hkp : k ≤ p) :
    intOfDecF (mulPow10 ⟨(va : Int) * 10 ^ k + (vb : Int), k⟩ p) =
      (va : Int) * 10 ^ p + (vb : Int) * 10 ^ (p - k) := by
  have hnum : (mulPow10 ⟨(va : Int) * 10 ^ k + (vb : Int), k⟩ p).num =
      (((va * 10 ^ k + vb) * 10 ^ p : Nat) : Int) := by
    simp only [mulPow10]
    push_cast
    ring
  have hdiv : (va * 10 ^ k + vb) * 10 ^ p / 10 ^ k = va * 10 ^ p + vb * 10 ^ (p - k) := by
    have hsplit : (va * 10 ^ k + vb) * 10 ^ p = 10 ^ k * (va * 10 ^ p + vb * 10 ^ (p - k)) := by
      have hpk : 10 ^ (p - k) * 10 ^ k = 10 ^ p := by
        rw [← pow_add]
        congr 1
        omega
      calc (va * 10 ^ k + vb) * 10 ^ p
          = va * 10 ^ p * 10 ^ k + vb * 10 ^ p := by ring
        _ = va * 10 ^ p * 10 ^ k + vb * (10 ^ (p - k) * 10 ^ k) := by rw [hpk]
        _ = 10 ^ k * (va * 10 ^ p + vb * 10 ^ (p - k)) := by ring
    rw [hsplit]
    exact Nat.mul_div_cancel_left _ (Nat.pos_pow_of_pos k (by norm_num))
  unfold intOfDecF
  rw [hnum, if_pos (Int.natCast_nonneg _)]
  show (((((va * 10 ^ k + vb) * 10 ^ p : Nat) : Int)).toNat / 10 ^ k : Nat) =
    (va : Int) * 10 ^ p + (vb : Int) * 10 ^ (p - k)
  rw [Int.toNat_natCast, hdiv]
  push_cast
  ring

/-! ### C5: magnitude parsing -/

theorem digitChar_ne_dot {d : Nat} (h : d < 10) : digitChar d ≠ '.' := by
  interval_cases d <;> decide

theorem digitChar_ne_comma {d : Nat} (h : d < 10) : digitChar d ≠ ',' := by
  interval_cases d <;> decide

theorem intOfDecF_mulPow10_nat (va p : Nat) :
    intOfDecF (mulPow10 ⟨(va : Int), 0⟩ p) = (va : Int) * 10 ^ p := by
  have h := intOfDecF_mulPow10 va 0 0 p (Nat.zero_le p)
  simpa using h

theorem intOfDecF_nat (va : Nat) : intOfDecF ⟨(va : Int), 0⟩ = (va : Int) := by
  simp [intOfDecF]

/-- Facts about the character content of `digitsStr a ++ suffix`-style strings,
split out so each branch of `_convert_to_number` can be computed. -/
theorem digits_chars_clean {a : List Nat} (h : ∀ d ∈ a, d < 10) :
    (∀ c ∈ a.map digitChar, pyIsSpace c = false) ∧
      (∀ c ∈ a.map digitChar, keepNumChar c = true) ∧
      (∀ c ∈ a.map digitChar, c ≠ '万') ∧ (∀ c ∈ a.map digitChar, c ≠ '亿') ∧
      (∀ c ∈ a.map digitChar, c ≠ ',') ∧ (∀ c ∈ a.map digitChar, c.isDigit = true) := by
  refine ⟨?_, ?_, ?_, ?_, ?_, ?_⟩ <;>
    · intro c hc
      rcases List.mem_map.mp hc with ⟨d, hd, rfl⟩
      first
        | exact digitChar_not_space (h d hd)
        | exact digitChar_keepNum (h d hd)
        | exact digitChar_ne_wan (h d hd)
        | exact digitChar_ne_yi (h d hd)
        | exact digitChar_ne_comma (h d hd)
        | exact digitChar_isDigit (h d hd)

/-- The `万` branch of `_convert_to_number` on a clean integer magnitude. -/
theorem convert_enh_wan_int (a : List Nat) (hne : a ≠ []) (h : ∀ d ∈ a, d < 10) :
    convert_to_number_enh (some (catS (digitsStr a) "万")) = (digitsVal a : Int) * 10000 := by
  obtain ⟨hsp, hkeep, hwan, hyi, _, _⟩ := digits_chars_clean h
  set L : List Char := a.map digitChar ++ ['万'] with hL
  have hveq : catS (digitsStr a) "万" = ⟨L⟩ := rfl
  have hLsp : ∀ c ∈ L, pyIsSpace c = false := by
    intro c hc
    rcases List.mem_append.mp hc with h1 | h1
    · exact hsp c h1
    · rcases List.mem_singleton.mp h1 with rfl; decide
  have hLkeep : ∀ c ∈ L, keepNumChar c = true := by
    intro c hc
    rcases List.mem_append.mp hc with h1 | h1
    · exact hkeep c h1
    · rcases List.mem_singleton.mp h1 with rfl; decide
  have hLne : L ≠ [] := by simp [hL]
  have hclean : (pyStripL L).filter keepNumChar = L := by
    rw [pyStripL_eq_self L hLsp, List.filter_eq_self.mpr hLkeep]
  have hyiL : ('亿' : Char) ∉ L := by
    intro hmem
    rcases List.mem_append.mp hmem with h1 | h1
    · exact hyi _ h1 rfl
    · simp at h1
  have hwanL : ('万' : Char) ∈ L := by simp [hL]
  have hremove : removeSubL ['万'] L = a.map digitChar := by
    rw [removeSubL_singleton]
    rw [List.filter_append]
    rw [List.filter_eq_self.mpr (by intro c hc; simpa using hwan c hc)]
    simp
  rw [hveq]
  show (convert_to_number_enh_body (some ⟨L⟩)).getD 0 = _
  rw [convert_to_number_enh_body]
  rw [if_neg (by rw [mkStr_eq_empty_iff]; exact hLne)]
  simp only [hclean]
  rw [if_neg (by rw [mkStr_eq_empty_iff]; exact hLne)]
  rw [if_neg (by
    show ¬ (hasSubL ['亿'] L = true)
    rw [hasSubL_singleton]
    exact hyiL)]
  rw [if_pos (by
    show hasSubL ['万'] L = true
    rw [hasSubL_singleton]
    exact hwanL)]
  show ((pyFloat ⟨removeSubL ['万'] L⟩).map (fun d => intOfDecF (mulPow10 d 4))).getD 0 = _
  rw [hremove]
  rw [show (⟨a.map digitChar⟩ : String) = digitsStr a from rfl]
  rw [pyFloat_digits a hne h]
  show intOfDecF (mulPow10 ⟨(digitsVal a : Int), 0⟩ 4) = _
  rw [intOfDecF_mulPow10_nat]
  norm_num

/-- Reduction of `_convert_to_number` on an input that is already stripped and
contains only kept characters. -/
theorem convert_enh_body_clean (L : List Char) (hLne : L ≠ [])
    (hsp : ∀ c ∈ L, pyIsSpace c = false) (hkeep : ∀ c ∈ L, keepNumChar c = true) :
    convert_to_number_enh (some ⟨L⟩) =
      (if hasSubL ['亿'] L then
        (pyFloat ⟨removeSubL ['亿'] L⟩).map (fun d => intOfDecF (mulPow10 d 8))
      else if hasSubL ['万'] L then
        (pyFloat ⟨removeSubL ['万'] L⟩).map (fun d => intOfDecF (mulPow10 d 4))
      else (pyFloat ⟨removeSubL [','] L⟩).map intOfDecF).getD 0 := by
  have hclean : (pyStripL L).filter keepNumChar = L := by
    rw [pyStripL_eq_self L hsp, List.filter_eq_self.mpr hkeep]
  show (convert_to_number_enh_body (some ⟨L⟩)).getD 0 = _
  rw [convert_to_number_enh_body]
  rw [if_neg (by rw [mkStr_eq_empty_iff]; exact hLne)]
  simp only [hclean]
  rw [if_neg (by rw [mkStr_eq_empty_iff]; exact hLne)]
  rfl

/-- The `万` branch on a clean fractional magnitude `a.b万`. -/
theorem convert_enh_wan_frac (a b : List Nat) (ha : ∀ d ∈ a, d < 10)
    (hb : ∀ d ∈ b, d < 10) (hbne : b ≠ []) (hb4 : b.length ≤ 4) :
    convert_to_number_enh
        (some (catS (digitsStr a) (catS "." (catS (digitsStr b) "万")))) =
      (digitsVal a : Int) * 10000 + (digitsVal b : Int) * 10 ^ (4 - b.length) := by
  obtain ⟨hspa, hkeepa, hwana, hyia, _, _⟩ := digits_chars_clean ha
  obtain ⟨hspb, hkeepb, hwanb, hyib, _, _⟩ := digits_chars_clean hb
  set L : List Char := a.map digitChar ++ '.' :: (b.map digitChar ++ ['万']) with hL
  have hveq : catS (digitsStr a) (catS "." (catS (digitsStr b) "万")) = ⟨L⟩ := rfl
  have hLsp : ∀ c ∈ L, pyIsSpace c = false := by
    intro c hc
    rcases List.mem_append.mp hc with h1 | h1
    · exact hspa c h1
    · rcases List.mem_cons.mp h1 with rfl | h2
      · decide
      · rcases List.mem_append.mp h2 with h3 | h3
        · exact hspb c h3
        · rcases List.mem_singleton.mp h3 with rfl; decide
  have hLkeep : ∀ c ∈ L, keepNumChar c = true := by
    intro c hc
    rcases List.mem_append.mp hc with h1 | h1
    · exact hkeepa c h1
    · rcases List.mem_cons.mp h1 with rfl | h2
      · decide
      · rcases List.mem_append.mp h2 with h3 | h3
        · exact hkeepb c h3
        · rcases List.mem_singleton.mp h3 with rfl; decide
  have hLne : L ≠ [] := by simp [hL]
  have hyiL : ¬ (hasSubL ['亿'] L = true) := by
    rw [hasSubL_singleton]
    intro hmem
    rcases List.mem_append.mp hmem with h1 | h1
    · exact hyia _ h1 rfl
    · rcases List.mem_cons.mp h1 with h2 | h2
      · exact absurd h2 (by decide)
      · rcases List.mem_append.mp h2 with h3 | h3
        · exact hyib _ h3 rfl
        · simp at h3
  have hwanL : hasSubL ['万'] L = true := by
    rw [hasSubL_singleton]
    simp [hL]
  have hremove : removeSubL ['万'] L = a.map digitChar ++ '.' :: b.map digitChar := by
    rw [removeSubL_singleton, List.filter_append]
    rw [List.filter_eq_self.mpr (by intro c hc; simpa using hwana c hc)]
    rw [List.filter_cons, if_pos (by decide)]
    rw [List.filter_append]
    rw [List.filter_eq_self.mpr (by intro c hc; simpa using hwanb c hc)]
    simp
  rw [hveq, convert_enh_body_clean L hLne hLsp hLkeep]
  rw [if_neg hyiL, if_pos hwanL, hremove]
  rw [pyFloat_digits_dot a b ha hb hbne]
  show intOfDecF (mulPow10 ⟨(digitsVal a : Int) * 10 ^ b.length + (digitsVal b : Int),
    b.length⟩ 4) = _
  rw [intOfDecF_mulPow10 _ _ _ _ hb4]
  norm_num

/-- The `亿` branch on a clean integer magnitude. -/
theorem convert_enh_yi_int (a : List Nat) (hne : a ≠ []) (h : ∀ d ∈ a, d < 10) :
    convert_to_number_enh (some (catS (digitsStr a) "亿")) =
      (digitsVal a : Int) * 100000000 := by
  obtain ⟨hsp, hkeep, _, hyi, _, _⟩ := digits_chars_clean h
  set L : List Char := a.map digitChar ++ ['亿'] with hL
  have hveq : catS (digitsStr a) "亿" = ⟨L⟩ := rfl
  have hLsp : ∀ c ∈ L, pyIsSpace c = false := by
    intro c hc
    rcases List.mem_append.mp hc with h1 | h1
    · exact hsp c h1
    · rcases List.mem_singleton.mp h1 with rfl; decide
  have hLkeep : ∀ c ∈ L, keepNumChar c = true := by
    intro c hc
    rcases List.mem_append.mp hc with h1 | h1
    · exact hkeep c h1
    · rcases List.mem_singleton.mp h1 with rfl; decide
  have hLne : L ≠ [] := by simp [hL]
  have hyiL : hasSubL ['亿'] L = true := by
    rw [hasSubL_singleton]
    simp [hL]
  have hremove : removeSubL ['亿'] L = a.map digitChar := by
    rw [removeSubL_singleton, List.filter_append]
    rw [List.filter_eq_self.mpr (by intro c hc; simpa using hyi c hc)]
    simp
  rw [hveq, convert_enh_body_clean L hLne hLsp hLkeep]
  rw [if_pos hyiL, hremove]
  rw [show (⟨a.map digitChar⟩ : String) = digitsStr a from rfl]
  rw [pyFloat_digits a hne h]
  show intOfDecF (mulPow10 ⟨(digitsVal a : Int), 0⟩ 8) = _
  rw [intOfDecF_mulPow10_nat]
  norm_num

/-- The plain-decimal fallback on a clean digit string. -/
theorem convert_enh_plain (a : List Nat) (hne : a ≠ []) (h : ∀ d ∈ a, d < 10) :
    convert_to_number_enh (some (digitsStr a)) = (digitsVal a : Int) := by
  obtain ⟨hsp, hkeep, hwan, hyi, hcomma, _⟩ := digits_chars_clean h
  have hLne : a.map digitChar ≠ [] := by simpa using hne
  have hyiL : ¬ (hasSubL ['亿'] (a.map digitChar) = true) := by
    rw [hasSubL_singleton]
    intro hmem
    exact hyi _ hmem rfl
  have hwanL : ¬ (hasSubL ['万'] (a.map digitChar) = true) := by
    rw [hasSubL_singleton]
    intro hmem
    exact hwan _ hmem rfl
  have hremove : removeSubL [','] (a.map digitChar) = a.map digitChar := by
    rw [removeSubL_singleton]
    rw [List.filter_eq_self.mpr (by intro c hc; simpa using hcomma c hc)]
  rw [show digitsStr a = (⟨a.map digitChar⟩ : String) from rfl]
  rw [convert_enh_body_clean _ hLne hsp hkeep]
  rw [if_neg hyiL, if_neg hwanL, hremove]
  rw [show (⟨a.map digitChar⟩ : String) = digitsStr a from rfl]
  rw [pyFloat_digits a hne h]
  show intOfDecF ⟨(digitsVal a : Int), 0⟩ = _
  rw [intOfDecF_nat]

/-- **C5 (counterexample).**  The claim says `parseMagnitude` "returns 0 on
unparseable input without ever throwing" for every input string; but the
`weibo/main.py` implementation `convert_to_number` has no exception handler:
on the unparseable inputs `"ads"` and `""` it evaluates `int(float(...))`,
which raises `ValueError` (a `none` result below).  Only the
`topic_detail.py` variant `_convert_to_number` returns 0 there. -/
theorem convert_to_number_counterexample :
    convert_to_number "ads" = none ∧ convert_to_number "" = none ∧
      convert_to_number_enh (some "ads") = 0 ∧ convert_to_number_enh (some "") = 0 := by
  refine ⟨by decide, by decide, by decide, by decide⟩

/-- **C5 (amended).**  The enhanced parser `_convert_to_number`
(topic_detail.py) scales a `万`-suffixed magnitude by 10⁴ and an `亿`-suffixed
one by 10⁸ — exactly, under the exact-decimal idealisation of Python `float`
(true binary floating point can be off by one unit on values such as `2.3万`,
which CPython computes as 22999) — falls back to a plain decimal parse, and
returns 0 on unparseable input without throwing; the `weibo/main.py` variant
`convert_to_number` raises `ValueError` on unparseable input instead of
returning 0 (see the counterexample).  Magnitudes are quantified as digit
lists: `digitsStr ds` is the decimal numeral of `digitsVal ds`. -/
theorem convert_magnitude_amended :
    (∀ a : List Nat, a ≠ [] → (∀ d ∈ a, d < 10) →
      convert_to_number_enh (some (catS (digitsStr a) "万")) = (digitsVal a : Int) * 10000) ∧
    (∀ a b : List Nat, (∀ d ∈ a, d < 10) → (∀ d ∈ b, d < 10) → b ≠ [] → b.length ≤ 4 →
      convert_to_number_enh (some (catS (digitsStr a) (catS "." (catS (digitsStr b) "万")))) =
        (digitsVal a : Int) * 10000 + (digitsVal b : Int) * 10 ^ (4 - b.length)) ∧
    (∀ a : List Nat, a ≠ [] → (∀ d ∈ a, d < 10) →
      convert_to_number_enh (some (catS (digitsStr a) "亿")) = (digitsVal a : Int) * 100000000) ∧
    (∀ a : List Nat, a ≠ [] → (∀ d ∈ a, d < 10) →
      convert_to_number_enh (some (digitsStr a)) = (digitsVal a : Int)) ∧
    convert_to_number_enh (some "12.5万") = 125000 ∧
    convert_to_number_enh (some "3亿") = 300000000 ∧
    convert_to_number_enh (some "ads") = 0 ∧
    convert_to_number_enh none = 0 := by
  refine ⟨?_, ?_, ?_, ?_, by decide, by decide, by decide, by decide⟩
  · intro a hne h
    exact convert_enh_wan_int a hne h
  · intro a b ha hb hbne hb4
    exact convert_enh_wan_frac a b ha hb hbne hb4
  · intro a hne h
    exact convert_enh_yi_int a hne h
  · intro a hne h
    exact convert_enh_plain a hne h

/-- Witness for C5's amended theorem: `"12.5万"` as the digit lists
`[1,2]` and `[5]` gives `12 * 10000 + 5 * 1000 = 125000`, and `"3亿"` gives
`300000000`. -/
theorem convert_magnitude_amended_witness :
    convert_to_number_enh (some (catS (digitsStr [1, 2]) (catS "." (catS (digitsStr [5]) "万")))) =
        (digitsVal [1, 2] : Int) * 10000 + (digitsVal [5] : Int) * 10 ^ (4 - 1) ∧
      convert_to_number_enh (some (catS (digitsStr [3]) "亿")) = (digitsVal [3] : Int) * 100000000 := by
  constructor
  · exact convert_magnitude_amended.2.1 [1, 2] [5] (by decide) (by decide) (by decide) (by decide)
  · exact convert_magnitude_amended.2.2.1 [3] (by decide) (by decide)

/-! ### Supporting lemmas for the merge -/

theorem insertHot_perm (w : SWord) (l : List SWord) : (insertHot w l).Perm (w :: l) := by
  induction l with
  | nil => simp [insertHot]
  | cons x xs ih =>
    rw [insertHot]
    split
    · exact List.Perm.refl _
    · exact (List.Perm.cons x ih).trans (List.Perm.swap w x xs)

theorem sortByHotDesc_perm (l : List SWord) : (sortByHotDesc l).Perm l := by
  induction l with
  | nil => exact List.Perm.refl _
  | cons x xs ih =>
    exact (insertHot_perm x (sortByHotDesc xs)).trans (List.Perm.cons x ih)

theorem lookupTitle_some (m : List SWord) (t : String) (x : SWord)
    (h : lookupTitle m t = some x) : x ∈ m ∧ x.title = t := by
  refine ⟨List.mem_of_find?_eq_some h, ?_⟩
  have := List.find?_some h
  simpa using this

theorem lookupTitle_eq_none (m : List SWord) (t : String) :
    lookupTitle m t = none ↔ ∀ x ∈ m, x.title ≠ t := by
  unfold lookupTitle
  rw [List.find?_eq_none]
  constructor
  · intro h x hx
    have := h x hx
    simpa using this
  · intro h x hx
    simpa using h x hx

theorem lookupTitle_map_preserve (g : SWord → SWord) (hg : ∀ x, (g x).title = x.title)
    (m : List SWord) (t : String) :
    lookupTitle (m.map g) t = (lookupTitle m t).map g := by
  induction m with
  | nil => rfl
  | cons x xs ih =>
    unfold lookupTitle at *
    by_cases hx : x.title = t
    · simp [List.find?_cons, hg x, hx]
    · simp [List.find?_cons, hg x, hx, ih]

theorem lookupTitle_append (m m2 : List SWord) (t : String) :
    lookupTitle (m ++ m2) t =
      match lookupTitle m t with
      | some x => some x
      | none => lookupTitle m2 t := by
  induction m with
  | nil => rfl
  | cons x xs ih =>
    unfold lookupTitle at *
    by_cases hx : x.title = t
    · simp [List.find?_cons, hx]
    · simp [List.find?_cons, hx, ih]

theorem titles_map_preserve (g : SWord → SWord) (hg : ∀ x, (g x).title = x.title)
    (m : List SWord) : (m.map g).map SWord.title = m.map SWord.title := by
  rw [List.map_map]
  exact List.map_congr_left (fun x _ => hg x)

theorem lookupTitle_of_mem_nodup (m : List SWord) (t : String) (x : SWord)
    (hnd : (m.map SWord.title).Nodup) (hx : x ∈ m) (ht : x.title = t) :
    lookupTitle m t = some x := by
  induction m with
  | nil => simp at hx
  | cons y ys ih =>
    simp only [List.map_cons, List.nodup_cons] at hnd
    rcases List.mem_cons.mp hx with rfl | hx2
    · unfold lookupTitle
      simp [List.find?_cons, ht]
    · have hyt : y.title ≠ t := by
        intro hyt
        apply hnd.1
        rw [hyt, ← ht]
        exact List.mem_map_of_mem SWord.title hx2
      unfold lookupTitle at *
      simpa [List.find?_cons, hyt] using ih hnd.2 hx2

theorem lookupTitle_perm (m m' : List SWord) (t : String) (hp : m.Perm m')
    (hnd : (m.map SWord.title).Nodup) :
    lookupTitle m t = lookupTitle m' t := by
  have hnd' : (m'.map SWord.title).Nodup := ((hp.map SWord.title).nodup_iff).mp hnd
  cases hm : lookupTitle m t with
  | some x =>
    obtain ⟨hmem, ht⟩ := lookupTitle_some m t x hm
    exact (lookupTitle_of_mem_nodup m' t x hnd' (hp.mem_iff.mp hmem) ht).symm
  | none =>
    cases hm' : lookupTitle m' t with
    | some y =>
      obtain ⟨hmem, ht⟩ := lookupTitle_some m' t y hm'
      have := (lookupTitle_eq_none m t).mp hm y (hp.mem_iff.mpr hmem)
      exact absurd ht this
    | none => rfl

theorem mergeUpdate_title (wposts : List MPost) (h r d o : Int) (x : SWord) :
    (mergeUpdate wposts h r d o x).title = x.title := rfl

/-- The merge-loop update function preserves every title. -/
theorem mergeGuard_title (w : WItem) (h r d o : Int) :
    ∀ x : SWord, ((fun x => if x.title = w.title then mergeUpdate w.posts h r d o x else x) x).title
      = x.title := by
  intro x
  by_cases hx : x.title = w.title
  · simp [hx, mergeUpdate_title]
  · simp [hx]

/-- A successful `mergeStep` either updates in place (title present) or
appends the new word (title absent). -/
theorem mergeStep_cases (m : List SWord) (w : WItem) (m' : List SWord)
    (hok : mergeStep m w = .ok m') :
    (∃ old h r d o, lookupTitle m w.title = some old ∧
        m' = m.map (fun x => if x.title = w.title then mergeUpdate w.posts h r d o x else x)) ∨
      (lookupTitle m w.title = none ∧ m' = m ++ [toSWord w]) := by
  unfold mergeStep at hok
  cases hlk : lookupTitle m w.title with
  | some old =>
    rw [hlk] at hok
    cases hr : maxPy (orZero w.read_count) old.read_count with
    | error e => simp [Bind.bind, Except.bind, hr] at hok
    | ok r =>
      cases hd : maxPy (orZero w.discuss_count) old.discuss_count with
      | error e => simp [Bind.bind, Except.bind, hr, hd] at hok
      | ok d =>
        cases ho : maxPy (orZero w.origin) old.origin with
        | error e => simp [Bind.bind, Except.bind, hr, hd, ho] at hok
        | ok o =>
          left
          refine ⟨old, max w.hot old.hot, r, d, o, rfl, ?_⟩
          simp [Bind.bind, Except.bind, hr, hd, ho] at hok
          exact hok.symm
  | none =>
    rw [hlk] at hok
    right
    exact ⟨rfl, by simpa using hok.symm⟩

theorem mergeStep_nodup (m : List SWord) (w : WItem) (m' : List SWord)
    (hnd : (m.map SWord.title).Nodup) (hok : mergeStep m w = .ok m') :
    (m'.map SWord.title).Nodup := by
  rcases mergeStep_cases m w m' hok with ⟨old, h, r, d, o, _, rfl⟩ | ⟨hnone, rfl⟩
  · rw [titles_map_preserve _ (mergeGuard_title w h r d o)]
    exact hnd
  · rw [List.map_append]
    rw [List.nodup_append]
    refine ⟨hnd, by simp, ?_⟩
    intro t ht
    simp only [List.map_cons, List.map_nil, List.mem_singleton]
    intro hw
    rcases List.mem_map.mp ht with ⟨x, hx, rfl⟩
    exact (lookupTitle_eq_none m w.title).mp hnone x hx hw

theorem mergeStep_lookup_other (m : List SWord) (w : WItem) (m' : List SWord) (t : String)
    (ht : w.title ≠ t) (hok : mergeStep m w = .ok m') :
    lookupTitle m' t = lookupTitle m t := by
  rcases mergeStep_cases m w m' hok with ⟨old, h, r, d, o, _, rfl⟩ | ⟨_, rfl⟩
  · rw [lookupTitle_map_preserve _ (mergeGuard_title w h r d o)]
    cases hx : lookupTitle m t with
    | none => rfl
    | some x =>
      obtain ⟨_, hxt⟩ := lookupTitle_some m t x hx
      show some (if x.title = w.title then _ else x) = some x
      rw [if_neg (by rw [hxt]; exact fun hh => ht hh.symm)]
  · rw [lookupTitle_append]
    cases hx : lookupTitle m t with
    | some x => rfl
    | none =>
      show lookupTitle [toSWord w] t = none
      rw [lookupTitle_eq_none]
      intro x hx2
      rcases List.mem_singleton.mp hx2 with rfl
      exact ht

/-- A successful `mergeStep` whose title is present forces the three stored
counts to be non-`null` (otherwise `max(int, None)` raises). -/
theorem mergeStep_ok_fields (m : List SWord) (w : WItem) (m' : List SWord) (old : SWord)
    (hok : mergeStep m w = .ok m') (hlk : lookupTitle m w.title = some old) :
    ∃ pr pd po, old.read_count = some pr ∧ old.discuss_count = some pd ∧
      old.origin = some po := by
  unfold mergeStep at hok
  rw [hlk] at hok
  cases hr : old.read_count with
  | none => simp [Bind.bind, Except.bind, maxPy, hr] at hok
  | some pr =>
    cases hd : old.discuss_count with
    | none => simp [Bind.bind, Except.bind, maxPy, hr, hd] at hok
    | some pd =>
      cases ho : old.origin with
      | none => simp [Bind.bind, Except.bind, maxPy, hr, hd, ho] at hok
      | some po => exact ⟨pr, pd, po, rfl, rfl, rfl⟩

/-- Exact form of a successful in-place update. -/
theorem mergeStep_self_ok (m : List SWord) (w : WItem) (old : SWord) (pr pd po : Int)
    (hlk : lookupTitle m w.title = some old)
    (hr : old.read_count = some pr) (hd : old.discuss_count = some pd)
    (ho : old.origin = some po) :
    mergeStep m w = .ok (m.map (fun x => if x.title = w.title then
      mergeUpdate w.posts (max w.hot old.hot) (max (orZero w.read_count) pr)
        (max (orZero w.discuss_count) pd) (max (orZero w.origin) po) x else x)) := by
  unfold mergeStep
  rw [hlk]
  simp [Bind.bind, Except.bind, maxPy, hr, hd, ho]

/-- After a successful in-place update, looking the title up gives exactly
the reconciled record. -/
theorem mergeStep_self_lookup (m : List SWord) (w : WItem) (old : SWord) (h r d o : Int)
    (hlk : lookupTitle m w.title = some old) :
    lookupTitle (m.map (fun x => if x.title = w.title then mergeUpdate w.posts h r d o x else x))
        w.title = some (mergeUpdate w.posts h r d o old) := by
  rw [lookupTitle_map_preserve _ (mergeGuard_title w h r d o), hlk]
  obtain ⟨_, hot⟩ := lookupTitle_some m w.title old hlk
  simp [hot]

theorem FieldLe_refl (a : Option Int) : FieldLe a a :=
  fun v hv => ⟨v, hv, le_refl v⟩

theorem FieldLe_step {a b c : Option Int} (h1 : FieldLe a b) (h2 : FieldLe b c) :
    FieldLe a c := by
  intro v hv
  obtain ⟨v1, hb, h1v⟩ := h1 v hv
  obtain ⟨v2, hc, h2v⟩ := h2 v1 hb
  exact ⟨v2, hc, le_trans h1v h2v⟩

theorem Bounds_refl (x : SWord) : Bounds x x :=
  ⟨le_refl _, FieldLe_refl _, FieldLe_refl _, FieldLe_refl _⟩

theorem Bounds_step {a b c : SWord} (h1 : Bounds a b) (h2 : Bounds b c) : Bounds a c :=
  ⟨le_trans h1.1 h2.1, FieldLe_step h1.2.1 h2.2.1, FieldLe_step h1.2.2.1 h2.2.2.1,
    FieldLe_step h1.2.2.2 h2.2.2.2⟩

theorem mergeStep_bounds (m : List SWord) (w : WItem) (m' : List SWord) (t : String)
    (nw : SWord) (hok : mergeStep m w = .ok m') (hlk : lookupTitle m t = some nw) :
    ∃ nw', lookupTitle m' t = some nw' ∧ Bounds nw nw' := by
  by_cases ht : w.title = t
  · subst ht
    obtain ⟨pr, pd, po, hr, hd, ho⟩ := mergeStep_ok_fields m w m' nw hok hlk
    have hstep := mergeStep_self_ok m w nw pr pd po hlk hr hd ho
    rw [hstep] at hok
    cases hok
    refine ⟨_, mergeStep_self_lookup m w nw _ _ _ _ hlk, ?_⟩
    refine ⟨le_max_right _ _, ?_, ?_, ?_⟩
    · intro v hv
      rw [hr] at hv
      obtain rfl : pr = v := by injection hv
      exact ⟨_, rfl, le_max_right _ _⟩
    · intro v hv
      rw [hd] at hv
      obtain rfl : pd = v := by injection hv
      exact ⟨_, rfl, le_max_right _ _⟩
    · intro v hv
      rw [ho] at hv
      obtain rfl : po = v := by injection hv
      exact ⟨_, rfl, le_max_right _ _⟩
  · rw [mergeStep_lookup_other m w m' t ht hok]
    exact ⟨nw, hlk, Bounds_refl nw⟩

theorem mergeFold_bounds (t : String) :
    ∀ (ws : List WItem) (m m' : List SWord) (nw : SWord),
      (m.map SWord.title).Nodup → mergeFold m ws = .ok m' →
      lookupTitle m t = some nw →
      ∃ nw', lookupTitle m' t = some nw' ∧ Bounds nw nw' ∧ (m'.map SWord.title).Nodup := by
  intro ws
  induction ws with
  | nil =>
    intro m m' nw hnd hok hlk
    obtain rfl : m = m' := by
      simpa [mergeFold] using hok
    exact ⟨nw, hlk, Bounds_refl nw, hnd⟩
  | cons w ws ih =>
    intro m m' nw hnd hok hlk
    rw [mergeFold] at hok
    cases hstep : mergeStep m w with
    | error e => rw [hstep] at hok; exact absurd hok (by simp)
    | ok m2 =>
      rw [hstep] at hok
      obtain ⟨nw2, hlk2, hb2⟩ := mergeStep_bounds m w m2 t nw hstep hlk
      have hnd2 := mergeStep_nodup m w m2 hnd hstep
      obtain ⟨nw', hlk', hb', hnd'⟩ := ih m2 m' nw2 hnd2 hok hlk2
      exact ⟨nw', hlk', Bounds_step hb2 hb', hnd'⟩

/-- Folding words none of which carry title `t` leaves the entry for `t`
untouched. -/
theorem mergeFold_lookup_other (t : String) :
    ∀ (ws : List WItem) (m m' : List SWord),
      (∀ w ∈ ws, w.title ≠ t) → mergeFold m ws = .ok m' →
      lookupTitle m' t = lookupTitle m t ∧
        ((m.map SWord.title).Nodup → (m'.map SWord.title).Nodup) := by
  intro ws
  induction ws with
  | nil =>
    intro m m' _ hok
    obtain rfl : m = m' := by simpa [mergeFold] using hok
    exact ⟨rfl, id⟩
  | cons w ws ih =>
    intro m m' hws hok
    rw [mergeFold] at hok
    cases hstep : mergeStep m w with
    | error e => rw [hstep] at hok; exact absurd hok (by simp)
    | ok m2 =>
      rw [hstep] at hok
      obtain ⟨hl, hn⟩ := ih m2 m' (fun x hx => hws x (by simp [hx])) hok
      refine ⟨?_, ?_⟩
      · rw [hl, mergeStep_lookup_other m w m2 t (hws w (by simp)) hstep]
      · intro hnd
        exact hn (mergeStep_nodup m w m2 hnd hstep)

/-- Splitting a successful fold at a designated current word. -/
theorem mergeFold_append (t : String) :
    ∀ (ws1 : List WItem) (ws2 : List WItem) (m r : List SWord),
      mergeFold m (ws1 ++ ws2) = .ok r →
      ∃ mid, mergeFold m ws1 = .ok mid ∧ mergeFold mid ws2 = .ok r := by
  intro ws1
  induction ws1 with
  | nil =>
    intro ws2 m r hok
    exact ⟨m, rfl, by simpa using hok⟩
  | cons w ws ih =>
    intro ws2 m r hok
    rw [List.cons_append, mergeFold] at hok
    cases hstep : mergeStep m w with
    | error e => rw [hstep] at hok; exact absurd hok (by simp)
    | ok m2 =>
      rw [hstep] at hok
      obtain ⟨mid, h1, h2⟩ := ih ws2 m2 r hok
      refine ⟨mid, ?_, h2⟩
      rw [mergeFold, hstep]
      exact h1

/-- On a prior summary with pairwise-distinct titles, the Python dict
comprehension is the identity. -/
theorem buildMap_eq_self (stored : List SWord)
    (hnd : (stored.map SWord.title).Nodup) : buildMap stored = stored := by
  have go : ∀ (rest acc : List SWord), ((acc ++ rest).map SWord.title).Nodup →
      rest.foldl insertOrReplace acc = acc ++ rest := by
    intro rest
    induction rest with
    | nil => intro acc _; simp
    | cons w ws ih =>
      intro acc hnd2
      have hwacc : lookupTitle acc w.title = none := by
        rw [lookupTitle_eq_none]
        intro x hx hxt
        rw [List.map_append] at hnd2
        rcases List.nodup_append.mp hnd2 with ⟨_, _, hdisj⟩
        have hm1 : x.title ∈ acc.map SWord.title := List.mem_map_of_mem _ hx
        have hm2 : x.title ∈ (w :: ws).map SWord.title := by simp [hxt]
        first
          | exact hdisj hm1 hm2
          | exact hdisj hm2 hm1
          | exact absurd hm2 (hdisj hm1)
          | exact absurd hm1 (hdisj hm2)
      have : insertOrReplace acc w = acc ++ [w] := by
        unfold insertOrReplace
        rw [hwacc]
        simp
      rw [List.foldl_cons, this, ih (acc ++ [w]) (by simpa using hnd2)]
      simp
  simpa using go stored [] (by simpa using hnd)

/-- **C9.**  The daily merge never decreases the reconciled metrics: for
every title present in the prior aggregate (with pairwise-distinct titles, as
the persisted summary has), if the merge succeeds then the merged aggregate
still contains the title and its `hot` and each present `read_count`,
`discuss_count`, `origin` value is ≥ the prior value — whether the title also
occurs in the current run (fields are reconciled with `max`) or not (the
record is carried through unchanged). -/
theorem merge_monotonic_C9 (stored : List SWord) (current : List WItem) (t : String)
    (old : SWord) (res : List SWord)
    (hnd : (stored.map SWord.title).Nodup)
    (hlk : lookupTitle stored t = some old)
    (hok : save_day_json_merge stored current = .ok res) :
    ∃ nw, lookupTitle res t = some nw ∧ old.hot ≤ nw.hot ∧
      FieldLe old.read_count nw.read_count ∧
      FieldLe old.discuss_count nw.discuss_count ∧
      FieldLe old.origin nw.origin := by
  unfold save_day_json_merge at hok
  rw [buildMap_eq_self stored hnd] at hok
  cases hf : mergeFold stored current with
  | error e => rw [hf] at hok; exact absurd hok (by simp [Except.map])
  | ok mid =>
    rw [hf] at hok
    have hres : res = sortByHotDesc mid := by simpa [Except.map] using hok.symm
    obtain ⟨nw, hlkm, hb, hndm⟩ := mergeFold_bounds t current stored mid old hnd hf hlk
    rw [hres, ← lookupTitle_perm mid _ t ((sortByHotDesc_perm mid).symm) hndm]
    exact ⟨nw, hlkm, hb.1, hb.2.1, hb.2.2.1, hb.2.2.2⟩

/-- Witness for C9 at a one-item prior aggregate and one-item current run. -/
theorem merge_monotonic_C9_witness :
    ∃ nw, lookupTitle sampleMergedC9 "A" = some nw ∧ (10 : Int) ≤ nw.hot ∧
      FieldLe (some 5) nw.read_count ∧ FieldLe (some 6) nw.discuss_count ∧
      FieldLe (some 7) nw.origin :=
  merge_monotonic_C9 sampleStored sampleCurrent "A"
    ⟨"A", none, none, none, 10, false, some 5, some 6, some 7, []⟩ sampleMergedC9
    (by decide) (by decide) rfl

/-- **C1.**  For a title present in both the current run (`cur`, flanked by
other-titled words) and the prior daily aggregate, when the merge succeeds
the merged record has `hot = max(current, previous)`, and — provided the
current item's three counts are present, as the claim's "current value"
presumes — `read_count`, `discuss_count` and `origin` each equal
`max(previous, current)`, while `posts` is replaced wholesale by the current
run's list.  (The `weibo/main.py` merge variant reconciles only `hot`; the
spec §4.6/§9 adopts this enhanced variant.) -/
theorem merge_fields_C1
    (stored : List SWord) (pre post : List WItem) (cur : WItem) (t : String)
    (old : SWord) (res : List SWord) (rc dc oc pr pd po : Int)
    (hnd : (stored.map SWord.title).Nodup)
    (hct : cur.title = t)
    (hpre : ∀ w ∈ pre, w.title ≠ t) (hpost : ∀ w ∈ post, w.title ≠ t)
    (hlk : lookupTitle stored t = some old)
    (hcr : cur.read_count = some rc) (hcd : cur.discuss_count = some dc)
    (hco : cur.origin = some oc)
    (hor : old.read_count = some pr) (hod : old.discuss_count = some pd)
    (hoo : old.origin = some po)
    (hok : save_day_json_merge stored (pre ++ cur :: post) = .ok res) :
    ∃ nw, lookupTitle res t = some nw ∧
      nw.hot = max cur.hot old.hot ∧
      nw.read_count = some (max rc pr) ∧
      nw.discuss_count = some (max dc pd) ∧
      nw.origin = some (max oc po) ∧
      nw.posts = cur.posts := by
  unfold save_day_json_merge at hok
  rw [buildMap_eq_self stored hnd] at hok
  cases hf : mergeFold stored (pre ++ cur :: post) with
  | error e => rw [hf] at hok; exact absurd hok (by simp [Except.map])
  | ok mid =>
    rw [hf] at hok
    have hres : res = sortByHotDesc mid := by simpa [Except.map] using hok.symm
    obtain ⟨m1, hf1, hf2⟩ := mergeFold_append t pre (cur :: post) stored mid hf
    obtain ⟨hl1, hn1⟩ := mergeFold_lookup_other t pre stored m1 hpre hf1
    have hndm1 := hn1 hnd
    have hlk1 : lookupTitle m1 cur.title = some old := by
      rw [hct, hl1]
      exact hlk
    rw [mergeFold] at hf2
    have hstep := mergeStep_self_ok m1 cur old pr pd po hlk1 hor hod hoo
    rw [hstep] at hf2
    have hf2a : mergeFold (m1.map (fun x => if x.title = cur.title then
        mergeUpdate cur.posts (max cur.hot old.hot) (max (orZero cur.read_count) pr)
          (max (orZero cur.discuss_count) pd) (max (orZero cur.origin) po) x
        else x)) post = Except.ok mid := hf2
    obtain ⟨hl2, hn2⟩ := mergeFold_lookup_other t post _ mid hpost hf2a
    have hndm2 : ((m1.map (fun x => if x.title = cur.title then
        mergeUpdate cur.posts (max cur.hot old.hot) (max (orZero cur.read_count) pr)
          (max (orZero cur.discuss_count) pd) (max (orZero cur.origin) po) x
        else x)).map SWord.title).Nodup := by
      rw [titles_map_preserve _ (mergeGuard_title cur _ _ _ _)]
      exact hndm1
    have hlk2 := mergeStep_self_lookup m1 cur old (max cur.hot old.hot)
      (max (orZero cur.read_count) pr) (max (orZero cur.discuss_count) pd)
      (max (orZero cur.origin) po) hlk1
    have hndmid := hn2 hndm2
    refine ⟨mergeUpdate cur.posts (max cur.hot old.hot) (max (orZero cur.read_count) pr)
      (max (orZero cur.discuss_count) pd) (max (orZero cur.origin) po) old,
      ?_, ?_, ?_, ?_, ?_, ?_⟩
    · rw [hres, ← lookupTitle_perm mid _ t ((sortByHotDesc_perm mid).symm) hndmid, hl2,
        ← hct, hlk2]
    · rfl
    · show some (max (orZero cur.read_count) pr) = some (max rc pr)
      rw [hcr]
      exact rfl
    · show some (max (orZero cur.discuss_count) pd) = some (max dc pd)
      rw [hcd]
      exact rfl
    · show some (max (orZero cur.origin) po) = some (max oc po)
      rw [hco]
      exact rfl
    · rfl

/-- Witness for C1 at a one-item prior aggregate and one-item current run. -/
theorem merge_fields_C1_witness :
    ∃ nw, lookupTitle sampleMergedC1 "A" = some nw ∧
      nw.hot = max (20 : Int) 10 ∧
      nw.read_count = some (max (9 : Int) 5) ∧
      nw.discuss_count = some (max (1 : Int) 6) ∧
      nw.origin = some (max (2 : Int) 7) ∧
      nw.posts = [samplePost] :=
  merge_fields_C1 sampleStored [] []
    ⟨"A", none, none, none, 20, false, some 9, some 1, some 2, [samplePost]⟩ "A"
    ⟨"A", none, none, none, 10, false, some 5, some 6, some 7, []⟩ sampleMergedC1
    9 1 2 5 6 7
    (by decide) rfl (by simp) (by simp) (by decide) rfl rfl rfl rfl rfl rfl rfl

/-- **C8 (counterexample).**  The claim says the pipeline output for
`[{title:"A", hot:"5.2万"}, {title:"B", hot:"ads", promotion:true}]` is one
item titled `"A"` with `hot = 52000`.  The code derives `hot` with
`extract_numbers`, which concatenates the digit characters of `"5.2万"` into
`52` — not the magnitude parse 52000.  (`"B"` is indeed dropped by the
promotion filter before its unparseable `"ads"` can raise.) -/
theorem pipeline_end_to_end_counterexample :
    gather_items (fun _ => emptyDetail) (fun _ => []) [rawTopicA, rawTopicB] =
        .ok [{ title := "A", category := none, description := none, url := none,
               hot := 52, ads := false, read_count := none, discuss_count := none,
               origin := none, posts := [] }] ∧
      ((52 : Int) = 52000 → False) := by
  refine ⟨rfl, by decide⟩

/-- **C8 (amended).**  Feeding the enhanced pipeline the raw topic list
`[A: "5.2万", B: "ads" (promoted)]` yields exactly one surviving item, titled
`"A"` with `hot = 52` (the digit-concatenation of `"5.2万"`), whatever the
detail and post oracles return; `"B"` is excluded because it is promoted. -/
theorem pipeline_end_to_end_amended (detailF : String → DetailR)
    (postsF : String → List MPost) :
    ∃ w : WItem, gather_items detailF postsF [rawTopicA, rawTopicB] = .ok [w] ∧
      w.title = "A" ∧ w.hot = 52 ∧ w.posts = postsF "A" ∧
      ∀ x ∈ [w], ¬ x.title = "B" := by
  refine ⟨{ title := "A",
            category := pyOrS (detailF "A").category none,
            description := pyOrS (detailF "A").desc none,
            url := none,
            hot := 52,
            ads := false,
            read_count := (detailF "A").read_count,
            discuss_count := (detailF "A").discuss_count,
            origin := (detailF "A").origin,
            posts := postsF "A" }, ?_, rfl, rfl, rfl, ?_⟩
  · show gather_items detailF postsF [rawTopicA, rawTopicB] = _
    rw [gather_items]
    rw [if_neg (show ¬ (rawTopicA.promotion = true) by decide)]
    rw [show process_item detailF postsF rawTopicA = .ok (some
      { title := "A",
        category := pyOrS (detailF "A").category none,
        description := pyOrS (detailF "A").desc none,
        url := none, hot := 52, ads := false,
        read_count := (detailF "A").read_count,
        discuss_count := (detailF "A").discuss_count,
        origin := (detailF "A").origin,
        posts := postsF "A" }) from rfl]
    rw [show gather_items detailF postsF [rawTopicB] = .ok [] from rfl]
  · intro x hx
    rcases List.mem_singleton.mp hx with rfl
    show ¬ ("A" : String) = "B"
    decide

theorem digitChar_ne_fa {d : Nat} (h : d < 10) : digitChar d ≠ '发' := by
  interval_cases d <;> decide

theorem digitChar_ne_gang {d : Nat} (h : d < 10) : digitChar d ≠ '刚' := by
  interval_cases d <;> decide

/-- The string `"N小时前"` passes the cleaning untouched and is matched by
(only) the hours-ago pattern, with the numeral's value. -/
theorem hoursStr_matches (ds : List Nat) (hne : ds ≠ []) (hds : ∀ d ∈ ds, d < 10) :
    cleanTime (ds.map digitChar ++ "小时前".data) = ds.map digitChar ++ "小时前".data ∧
      ¬ (ds.map digitChar ++ "小时前".data) = "刚刚".data ∧
      matchRel "分钟前".data (ds.map digitChar ++ "小时前".data) = none ∧
      matchRel "小时前".data (ds.map digitChar ++ "小时前".data) = some (digitsVal ds) := by
  set L : List Char := ds.map digitChar ++ "小时前".data with hL
  have hsp : ∀ c ∈ L, pyIsSpace c = false := by
    intro c hc
    rcases List.mem_append.mp hc with h1 | h1
    · rcases List.mem_map.mp h1 with ⟨d, hd, rfl⟩
      exact digitChar_not_space (hds d hd)
    · fin_cases h1 <;> decide
  have hfa : ('发' : Char) ∉ L := by
    intro hmem
    rcases List.mem_append.mp hmem with h1 | h1
    · rcases List.mem_map.mp h1 with ⟨d, hd, he⟩
      exact digitChar_ne_fa (hds d hd) he
    · exact absurd h1 (by decide)
  have hclean : cleanTime L = L := by
    unfold cleanTime
    rw [pyStripL_eq_self L hsp, removeSubL_not_occur '发' _ L hfa, pyStripL_eq_self L hsp]
  obtain ⟨d0, ds', rfl⟩ : ∃ d0 ds', ds = d0 :: ds' := by
    cases ds with
    | nil => exact absurd rfl hne
    | cons a b => exact ⟨a, b, rfl⟩
  have hd0 : d0 < 10 := hds d0 (by simp)
  have hgang : ¬ L = "刚刚".data := by
    rw [hL]
    intro hcontra
    have : digitChar d0 = '刚' := by
      have := congrArg (fun l => l.headD ' ') hcontra
      simpa using this
    exact digitChar_ne_gang hd0 this
  have hLhead : L = digitChar d0 :: (ds'.map digitChar ++ "小时前".data) := by
    simp [hL]
  have hdigits : ∀ c ∈ (d0 :: ds').map digitChar, c.isDigit = true := by
    intro c hc
    rcases List.mem_map.mp hc with ⟨d, hd, rfl⟩
    exact digitChar_isDigit (hds d hd)
  have hdropsp : L.dropWhile pyIsSpace = L := by
    rw [hLhead, List.dropWhile_cons, digitChar_not_space hd0]
    simp
  have htake : L.takeWhile Char.isDigit = (d0 :: ds').map digitChar := by
    rw [hL, takeWhile_append_of_all _ _ _ hdigits]
    simp [List.takeWhile_cons]
  have hdrop : L.dropWhile Char.isDigit = "小时前".data := by
    rw [hL, dropWhile_append_of_all _ _ _ hdigits]
    simp [List.dropWhile_cons]
  have hdropsp2 : ("小时前".data : List Char).dropWhile pyIsSpace = "小时前".data := by
    decide
  have hmapne : (d0 :: ds').map digitChar ≠ [] := by simp
  refine ⟨hclean, hgang, ?_, ?_⟩
  · simp only [matchRel]
    rw [hdropsp, htake, hdrop, hdropsp2]
    simp [hmapne, litP]
  · simp only [matchRel]
    rw [hdropsp, htake, hdrop, hdropsp2]
    rw [charsVal_map_digitChar _ hds]
    simp [hmapne, litP]

/-- **C7 (counterexample).**  The claim says `normalize_time` is the identity
on every input matching none of the recognized patterns.  `" ads "` matches
no pattern, yet the function returns the whitespace-stripped `"ads"`, because
the input is stripped (and `"发布于"` removed) before any pattern is tried. -/
theorem normalize_time_counterexample :
    matchesAnyTime " ads ".data = false ∧
      normalize_time 1064404800 " ads " = .ok "ads" ∧
      ¬ (" ads " : String) = "ads" := by
  refine ⟨by decide, by decide, by decide⟩

/-- **C7 (amended).**  `normalize_time` resolves relative forms against the
wall-clock time `now` at the moment of the call: `"刚刚"` gives `now`
formatted `YYYY-MM-DD HH:mm`, and `"N小时前"` gives `now` minus `N` hours
(raising `OverflowError` — an error value here — if that falls before
`datetime.min`); and on every input that matches none of the recognized
patterns it returns the whitespace-trimmed, `发布于`-stripped input, which is
the original string exactly when the input is already clean. -/
theorem normalize_time_amended :
    (∀ now : Nat, normalize_time now "刚刚" = .ok (fmtMinutes now)) ∧
      (∀ (now : Nat) (ds : List Nat), ds ≠ [] → (∀ d ∈ ds, d < 10) →
        60 * digitsVal ds ≤ now →
        normalize_time now (catS (digitsStr ds) "小时前") =
          .ok (fmtMinutes (now - 60 * digitsVal ds))) ∧
      (∀ (now : Nat) (s : String), cleanTime s.data = s.data →
        matchesAnyTime s.data = false → normalize_time now s = .ok s) := by
  refine ⟨?_, ?_, ?_⟩
  · intro now
    rfl
  · intro now ds hne hds hle
    obtain ⟨hclean, hgang, hmin, hhour⟩ := hoursStr_matches ds hne hds
    have hdata : (catS (digitsStr ds) "小时前").data = ds.map digitChar ++ "小时前".data := rfl
    have hnonempty : ¬ (catS (digitsStr ds) "小时前") = "" := by
      rw [show (catS (digitsStr ds) "小时前") = (⟨ds.map digitChar ++ "小时前".data⟩ : String)
        from rfl, mkStr_eq_empty_iff]
      cases ds with
      | nil => exact absurd rfl hne
      | cons a b => simp
    simp only [normalize_time, hnonempty, if_false, hdata, hclean, hgang, hmin, hhour,
      if_pos hle]
  · intro now s hclean hno
    have hnp : ¬ (s.data = "刚刚".data ∨ (matchRel "分钟前".data s.data).isSome = true ∨
        (matchRel "小时前".data s.data).isSome = true ∨
        (matchDayWord "今天".data s.data).isSome = true ∨
        (matchDayWord "昨天".data s.data).isSome = true ∨
        (matchMD s.data).isSome = true ∨ (matchYMD s.data).isSome = true ∨
        (searchMDT s.data).isSome = true) := of_decide_eq_false hno
    push_neg at hnp
    have hno := hnp
    have eqnone : ∀ {α : Type} {o : Option α}, ¬ o.isSome = true → o = none := by
      intro α o h
      cases o with
      | none => rfl
      | some v => exact absurd rfl h
    by_cases hs : s = ""
    · subst hs
      rfl
    · have h1 : ¬ s.data = "刚刚".data := by
        simpa using hno.1
      have h2 : matchRel "分钟前".data s.data = none := eqnone hno.2.1
      have h3 : matchRel "小时前".data s.data = none := eqnone hno.2.2.1
      have h4 : matchDayWord "今天".data s.data = none := eqnone hno.2.2.2.1
      have h5 : matchDayWord "昨天".data s.data = none := eqnone hno.2.2.2.2.1
      have h6 : matchMD s.data = none := eqnone hno.2.2.2.2.2.1
      have h7 : matchYMD s.data = none := eqnone hno.2.2.2.2.2.2.1
      have h8 : searchMDT s.data = none := eqnone hno.2.2.2.2.2.2.2
      simp only [normalize_time, hs, if_false, hclean, h1, h2, h3, h4, h5, h6, h7, h8]

/-- Witness for C7's amended theorem: `now` is 2025-01-31 00:00 as a
minute-count; `"3小时前"` is the digit list `[3]`. -/
theorem normalize_time_amended_witness :
    normalize_time 1064404800 "刚刚" = .ok (fmtMinutes 1064404800) ∧
      normalize_time 1064404800 (catS (digitsStr [3]) "小时前") =
        .ok (fmtMinutes (1064404800 - 60 * digitsVal [3])) ∧
      normalize_time 1064404800 "abc" = .ok "abc" :=
  ⟨normalize_time_amended.1 1064404800,
    normalize_time_amended.2.1 1064404800 [3] (by decide) (by decide) (by decide),
    normalize_time_amended.2.2 1064404800 "abc" (by decide) (by decide)⟩

theorem CollInv_append (st : CollectSt) (c : CardT) (durl : String) (b : Bool)
    (h : CollInv st) (hlt : st.acc.length < MAX_POSTS_TO_FETCH)
    (hnotin : durl ∉ st.seen) :
    CollInv ⟨st.seen ++ [durl], st.acc ++ [mkPostData c durl], b⟩ := by
  obtain ⟨hmem, hnd, hle⟩ := h
  refine ⟨?_, ?_, ?_⟩
  · intro pd hpd
    rcases List.mem_append.mp hpd with hl | hr
    · exact List.mem_append.mpr (Or.inl (hmem pd hl))
    · have hpd2 : pd = mkPostData c durl := List.mem_singleton.mp hr
      subst hpd2
      exact List.mem_append.mpr (Or.inr (List.mem_singleton.mpr rfl))
  · show ((st.acc ++ [mkPostData c durl]).map PostData.detail_url).Nodup
    rw [List.map_append]
    apply List.Nodup.append hnd (List.nodup_singleton _)
    intro x hx hx2
    have hx2a : x = durl := by simpa using hx2
    subst hx2a
    obtain ⟨pd, hpd, hpdu⟩ := List.mem_map.mp hx
    exact hnotin (hpdu ▸ hmem pd hpd)
  · show (st.acc ++ [mkPostData c durl]).length ≤ MAX_POSTS_TO_FETCH
    rw [List.length_append]
    simpa using hlt

theorem collectCards_inv (cs : List CardT) : ∀ st : CollectSt,
    CollInv st → st.acc.length < MAX_POSTS_TO_FETCH →
    CollInv (collectCards cs st) := by
  induction cs with
  | nil =>
    intro st h _
    simpa [collectCards] using h
  | cons c cs ih =>
    intro st h hlt
    simp only [collectCards]
    split
    · exact ih st h hlt
    · split
      · exact ih st h hlt
      · rename_i hskip
        push_neg at hskip
        split
        · exact CollInv_append st c (detailUrlOf c) true h hlt hskip.2
        · rename_i hnotfull
          apply ih
          · exact CollInv_append st c (detailUrlOf c) st.done h hlt hskip.2
          · simpa using Nat.lt_of_not_le (by simpa using hnotfull)

theorem collectExtra_inv (ps : List (Option (List CardT))) :
    ∀ st : CollectSt, CollInv st → CollInv (collectExtra st ps) := by
  induction ps with
  | nil =>
    intro st h
    simpa [collectExtra] using h
  | cons p ps ih =>
    intro st h
    simp only [collectExtra]
    split
    · exact h
    · rename_i hlt
      push_neg at hlt
      cases p with
      | none => exact ih st h
      | some cards =>
        have h2 := collectCards_inv cards st h hlt
        show CollInv (if (collectCards cards st).done = true then collectCards cards st
          else collectExtra (collectCards cards st) ps)
        split
        · exact h2
        · exact ih _ h2

theorem collectExtra_stop (st : CollectSt) (ps : List (Option (List CardT)))
    (h : MAX_POSTS_TO_FETCH ≤ st.acc.length) : collectExtra st ps = st := by
  cases ps with
  | nil => rfl
  | cons p ps => simp [collectExtra, h]

theorem collectCards_len_mono (cs : List CardT) : ∀ st : CollectSt,
    st.acc.length ≤ (collectCards cs st).acc.length := by
  induction cs with
  | nil =>
    intro st
    simp [collectCards]
  | cons c cs ih =>
    intro st
    simp only [collectCards]
    split
    · exact ih st
    · split
      · exact ih st
      · split
        · simp
        · refine le_trans ?_ (ih _)
          simp

theorem collectExtra_len_mono (ps : List (Option (List CardT))) :
    ∀ st : CollectSt, st.acc.length ≤ (collectExtra st ps).acc.length := by
  induction ps with
  | nil =>
    intro st
    simp [collectExtra]
  | cons p ps ih =>
    intro st
    simp only [collectExtra]
    split
    · exact le_rfl
    · cases p with
      | none => exact ih st
      | some cards =>
        show st.acc.length ≤ (if (collectCards cards st).done = true then collectCards cards st
          else collectExtra (collectCards cards st) ps).acc.length
        split
        · exact collectCards_len_mono cards st
        · exact le_trans (collectCards_len_mono cards st) (ih _)

theorem detailPhase_length (now : Nat) (vis : String → Option PageModel) :
    ∀ (l : List PostData) (ps : List WPost),
      detailPhase now vis l = .ok ps → ps.length = l.length := by
  intro l
  induction l with
  | nil =>
    intro ps h
    simp only [detailPhase, Except.ok.injEq] at h
    subst h
    rfl
  | cons pd rest ih =>
    intro ps h
    cases hg : get_post_details now (vis pd.detail_url) pd.detail_url pd with
    | error e =>
      simp only [detailPhase, Bind.bind, Except.bind, hg] at h
      exact Except.noConfusion h
    | ok p =>
      cases hr : detailPhase now vis rest with
      | error e =>
        simp only [detailPhase, Bind.bind, Except.bind, hg, hr] at h
        exact Except.noConfusion h
      | ok ps2 =>
        simp only [detailPhase, Bind.bind, Except.bind, hg, hr, Except.ok.injEq] at h
        subst h
        simp [ih ps2 hr]

theorem CollInv_init : CollInv ⟨[], [], false⟩ :=
  ⟨by simp, by simp, by decide⟩

theorem runCollect_len (now : Nat) (vis : String → Option PageModel)
    (cards1 : List CardT) (extras : List (Option (List CardT))) :
    (runCollect now vis cards1 extras).length ≤ MAX_POSTS_TO_FETCH := by
  have hinv : CollInv (collectExtra (collectCards cards1 ⟨[], [], false⟩) extras) :=
    collectExtra_inv extras _ (collectCards_inv cards1 _ CollInv_init (by decide))
  simp only [runCollect]
  cases hd : detailPhase now vis
      (collectExtra (collectCards cards1 ⟨[], [], false⟩) extras).acc with
  | error e =>
    show ([] : List WPost).length ≤ MAX_POSTS_TO_FETCH
    decide
  | ok ps =>
    show ps.length ≤ MAX_POSTS_TO_FETCH
    rw [detailPhase_length now vis _ ps hd]
    exact hinv.2.2

/-- C3: for every topic fetch, `get_top_20_hot_posts` returns at most
`MAX_POSTS_TO_FETCH` (20) posts; the collected records of one run carry
pairwise-distinct detail URLs; and once the running total has reached the
maximum, the page loop accepts no further posts. -/
theorem collector_bounds_C3 :
    (∀ (now : Nat) (vis : String → Option PageModel) load1 loginOk load2 extras,
      (get_top_20_hot_posts now vis load1 loginOk load2 extras).posts.length ≤
        MAX_POSTS_TO_FETCH) ∧
    (∀ (cards1 : List CardT) (extras : List (Option (List CardT))),
      ((collectExtra (collectCards cards1 ⟨[], [], false⟩) extras).acc.map
        PostData.detail_url).Nodup) ∧
    (∀ (st : CollectSt) (ps : List (Option (List CardT))),
      MAX_POSTS_TO_FETCH ≤ st.acc.length → collectExtra st ps = st) := by
  refine ⟨?_, ?_, ?_⟩
  · intro now vis load1 loginOk load2 extras
    cases load1 with
    | some cards => exact runCollect_len now vis cards extras
    | none =>
      cases loginOk with
      | false =>
        show ([] : List WPost).length ≤ MAX_POSTS_TO_FETCH
        decide
      | true =>
        cases load2 with
        | some cards => exact runCollect_len now vis cards extras
        | none =>
          show ([] : List WPost).length ≤ MAX_POSTS_TO_FETCH
          decide
  · intro cards1 extras
    exact (collectExtra_inv extras _
      (collectCards_inv cards1 _ CollInv_init (by decide))).2.1
  · intro st ps h
    exact collectExtra_stop st ps h

/-- C3 witness: a concretely full state (20 records) is returned unchanged
by the extra-page loop. -/
theorem collector_bounds_C3_witness :
    MAX_POSTS_TO_FETCH ≤ stStop.acc.length ∧ collectExtra stStop [none] = stStop :=
  ⟨by decide, collector_bounds_C3.2.2 stStop [none] (by decide)⟩

/-- C4: when the first page load fails to show `div.card-wrap`,
the collector re-authenticates and retries the whole attempt exactly once
(two load attempts in total); a second failure yields `[]` without raising;
a successful retry whose first card is valid and whose detail phase
succeeds yields a non-empty list. -/
theorem collector_auth_retry_C4 :
    (∀ (now : Nat) (vis : String → Option PageModel) load2 extras,
      (get_top_20_hot_posts now vis none true load2 extras).loadAttempts = 2) ∧
    (∀ (now : Nat) (vis : String → Option PageModel) extras,
      get_top_20_hot_posts now vis none true none extras = ⟨2, []⟩) ∧
    (∀ (now : Nat) (vis : String → Option PageModel) extras (c : CardT)
        (cs : List CardT) (ps : List WPost),
      c.hasTxt = true → ¬ detailUrlOf c = "" →
      detailPhase now vis
        (collectExtra (collectCards (c :: cs) ⟨[], [], false⟩) extras).acc =
        .ok ps →
      ¬ (get_top_20_hot_posts now vis none true (some (c :: cs)) extras).posts
        = []) := by
  refine ⟨?_, ?_, ?_⟩
  · intro now vis load2 extras
    cases load2 with
    | some cards => rfl
    | none => rfl
  · intro now vis extras
    rfl
  · intro now vis extras c cs ps hc hd hok
    have h1 : collectCards (c :: cs) (⟨[], [], false⟩ : CollectSt) =
        collectCards cs ⟨[detailUrlOf c], [mkPostData c (detailUrlOf c)], false⟩ := by
      simp [collectCards, hc, hd, MAX_POSTS_TO_FETCH]
    have hlen1 : 1 ≤
        (collectExtra (collectCards (c :: cs) ⟨[], [], false⟩) extras).acc.length := by
      refine le_trans ?_ (collectExtra_len_mono extras _)
      rw [h1]
      refine le_trans ?_ (collectCards_len_mono cs _)
      simp
    have hlen2 : ps.length =
        (collectExtra (collectCards (c :: cs) ⟨[], [], false⟩) extras).acc.length :=
      detailPhase_length now vis _ ps hok
    have hrun : (get_top_20_hot_posts now vis none true (some (c :: cs)) extras).posts
        = ps := by
      show runCollect now vis (c :: cs) extras = ps
      simp only [runCollect, hok]
    rw [hrun]
    intro hnil
    rw [hnil] at hlen2
    simp only [List.length_nil] at hlen2
    omega

/-- C4 witness: a wall on the first load, a successful login and retry with
one valid card, and an all-failing detail phase still yield a non-empty
result after exactly two load attempts. -/
theorem collector_auth_retry_C4_witness :
    cardW.hasTxt = true ∧ ¬ detailUrlOf cardW = "" ∧
    detailPhase 0 (fun _ => none)
      (collectExtra (collectCards [cardW] ⟨[], [], false⟩) []).acc = .ok [wpW] ∧
    ¬ (get_top_20_hot_posts 0 (fun _ => none) none true (some [cardW]) []).posts
      = [] :=
  ⟨rfl, by decide, by decide,
    collector_auth_retry_C4.2.2 0 (fun _ => none) [] cardW [] [wpW] rfl
      (by decide) (by decide)⟩

/-! ### Video-link lemmas -/

theorem data_nil_empty : ∀ (p : String), p.data = [] → p = ""
  | ⟨[]⟩, _ => rfl
  | ⟨_ :: _⟩, h => List.noConfusion h

theorem startsWithPy_ne_empty (p h : String) (hp : ¬ p = "")
    (hs : startsWithPy p h = true) : ¬ h = "" := by
  intro he
  subst he
  rw [startsWithPy] at hs
  cases hpd : p.data with
  | nil => exact hp (data_nil_empty p hpd)
  | cons c cs =>
    rw [hpd] at hs
    have : ("" : String).data = [] := rfl
    rw [this] at hs
    simp [litP] at hs

theorem urljoinWeibo_ne_empty (u : String) : ¬ urljoinWeibo u = "" := by
  rw [urljoinWeibo]
  split
  · decide
  · split
    · exact catS_ne_empty_left "https:" u (by decide)
    · split
      · exact catS_ne_empty_left "https://weibo.com" u (by decide)
      · exact catS_ne_empty_left "https://weibo.com/" u (by decide)

theorem videoLinkOf_ne_empty (durl : String) (anchors : List String)
    (hd : ¬ durl = "") : ¬ videoLinkOf durl anchors = "" := by
  rw [videoLinkOf]
  cases hf : firstTvHref anchors with
  | none => exact hd
  | some h =>
    show ¬ (if startsWithPy "http" h = true then h else urljoinWeibo h) = ""
    split
    · rename_i hh
      exact startsWithPy_ne_empty "http" h (by decide) hh
    · exact urljoinWeibo_ne_empty h

theorem failurePost_ok (now : Nat) (durl : String) (pd : PostData) (p : WPost)
    (hd : ¬ durl = "") (hok : failurePost now durl pd = .ok p) :
    p.video_link = durl ∧ p.content = cleanCaption pd.content := by
  by_cases hne : pd.timestamp = ""
  · simp only [failurePost, hne] at hok
    injection hok with h
    subst h
    refine ⟨rfl, ?_⟩
    show (if ¬ durl = "" then cleanCaption pd.content else pd.content)
      = cleanCaption pd.content
    rw [if_pos hd]
  · cases hnt : normalize_time now pd.timestamp with
    | error e =>
      simp only [failurePost] at hok
      rw [if_pos hne, hnt] at hok
      exact Except.noConfusion hok
    | ok v =>
      simp only [failurePost] at hok
      rw [if_pos hne, hnt] at hok
      injection hok with h
      subst h
      refine ⟨rfl, ?_⟩
      show (if ¬ durl = "" then cleanCaption pd.content else pd.content)
        = cleanCaption pd.content
      rw [if_pos hd]

/-- C10: every post built by `get_post_details` under a non-empty detail URL
carries a non-empty `video_link` — the first `/tv/show/` anchor when one
exists, otherwise the post's own detail URL (also when the page visit fails
entirely) — and consequently the `L…的微博视频` caption cleanup is applied to
every post's content. -/
theorem video_link_C10 :
    ∀ (now : Nat) (pm? : Option PageModel) (durl : String) (pd : PostData)
      (p : WPost),
      ¬ durl = "" → get_post_details now pm? durl pd = .ok p →
      (¬ p.video_link = "" ∧ p.content = cleanCaption pd.content) ∧
      (pm? = none → p.video_link = durl) ∧
      (∀ pm, pm? = some pm → successBody now pm durl pd = .ok p →
        p.video_link = videoLinkOf durl pm.anchorHrefs) ∧
      (∀ anchors, firstTvHref anchors = none → videoLinkOf durl anchors = durl) ∧
      (∀ anchors h, firstTvHref anchors = some h →
        videoLinkOf durl anchors =
          if startsWithPy "http" h = true then h else urljoinWeibo h) := by
  intro now pm? durl pd p hd hok
  have h4 : ∀ anchors, firstTvHref anchors = none → videoLinkOf durl anchors = durl := by
    intro anchors hf
    simp only [videoLinkOf, hf]
  have h5 : ∀ anchors h, firstTvHref anchors = some h →
      videoLinkOf durl anchors =
        if startsWithPy "http" h = true then h else urljoinWeibo h := by
    intro anchors h hf
    simp only [videoLinkOf, hf]
  cases pm? with
  | none =>
    have hok2 : failurePost now durl pd = .ok p := hok
    obtain ⟨hv, hc⟩ := failurePost_ok now durl pd p hd hok2
    exact ⟨⟨by rw [hv]; exact hd, hc⟩, fun _ => hv,
      fun pm hpm => Option.noConfusion hpm, h4, h5⟩
  | some pm =>
    have hok2 : (match successBody now pm durl pd with
        | Except.ok q => Except.ok q
        | Except.error _ => failurePost now durl pd) = Except.ok p := hok
    cases hsb : successBody now pm durl pd with
    | error e =>
      rw [hsb] at hok2
      have hok3 : failurePost now durl pd = .ok p := hok2
      obtain ⟨hv, hc⟩ := failurePost_ok now durl pd p hd hok3
      refine ⟨⟨by rw [hv]; exact hd, hc⟩, fun hne => Option.noConfusion hne,
        ?_, h4, h5⟩
      intro pm2 hpm2 hsb2
      cases hpm2
      rw [hsb] at hsb2
      exact Except.noConfusion hsb2
    | ok q =>
      rw [hsb] at hok2
      injection hok2 with hpq
      subst hpq
      cases hts : computeTs now pm pd.timestamp with
      | error e =>
        simp only [successBody, Bind.bind, Except.bind, hts] at hsb
        exact Except.noConfusion hsb
      | ok tsrc =>
        simp only [successBody, Bind.bind, Except.bind, hts] at hsb
        injection hsb with hq
        subst hq
        refine ⟨⟨?_, ?_⟩, fun hne => Option.noConfusion hne, ?_, h4, h5⟩
        · show ¬ videoLinkOf durl pm.anchorHrefs = ""
          exact videoLinkOf_ne_empty durl pm.anchorHrefs hd
        · show (if ¬ videoLinkOf durl pm.anchorHrefs = ""
              then cleanCaption pd.content else pd.content) = cleanCaption pd.content
          rw [if_pos (videoLinkOf_ne_empty durl pm.anchorHrefs hd)]
        · intro pm2 hpm2 hsb2
          cases hpm2
          rfl

/-- C10 witness: on a failed page visit with detail URL `"u"`, the built
post has the non-empty video link `"u"` and caption-cleaned content. -/
theorem video_link_C10_witness :
    (¬ ("u" : String) = "") ∧ get_post_details 0 none "u" pdC10 = .ok wpC10 ∧
    (¬ wpC10.video_link = "" ∧ wpC10.content = cleanCaption pdC10.content) :=
  ⟨by decide, by decide,
    (video_link_C10 0 none "u" pdC10 wpC10 (by decide) (by decide)).1⟩
